import Mathlib

/-!
# QML Live: command delivery, instance election and argument forwarding

A shallow embedding of `src/ipc/ipcclient.cpp` (`IpcClient`) and of the coordination part
of `src/bench/main.cpp` (`Application::isMaster`, `Application::serverName`,
`MasterApplication::listenForArguments`, `SlaveApplication::forwardArguments`), followed
by theorems about them.

Conventions of the embedding

* `QString` is a list of characters, `QByteArray` a list of bytes; the strings of the
  argument vector are lists of UTF-16 code units.
* The Qt socket is a record holding what the client reads from it (`isValid`, `state`,
  `bytesToWrite`) and the list of chunks passed to `write`, oldest first.
* Signals are appended to the `emitted` log, `QTimer::singleShot(ms, this, processQueue)`
  appends `ms` to the `timers` log, each call of `sendPackage` from the pump appends the
  package id to the `attempts` log.
* A failed `Q_ASSERT` is the result `none`.
* `QSharedMemory` is a record of operations over a world; `QDataStream` is modelled as
  far as the argument vector needs it.
-/

namespace QmlLive

/-! ## Strings and byte arrays -/

abbrev QString := List Char
abbrev QByteArray := List UInt8
abbrev QUuid := Nat

/-- Piece of a format string as `QString::arg` sees it: an ordinary character, or a place
marker `%N`, `%NN`, `%LN`, `%LNN` with its number and its own text. -/
inductive ArgToken where
  | lit (c : Char)
  | marker (n : Nat) (text : List Char)
  deriving DecidableEq, Repr

/-- Value of an ASCII decimal digit (`QChar::digitValue`). -/
def digitValue (c : Char) : Option Nat :=
  if 48 ≤ c.toNat ∧ c.toNat ≤ 57 then some (c.toNat - 48) else none

/-- Reads the place marker that may follow a `%`: an optional `L`, then one or two digits.
Returns the marker number, the text after the `%`, and the remaining input. -/
def readEscape : List Char → Option (Nat × List Char × List Char)
  | [] => none
  | c :: rest =>
    let body : List Char → Option (Nat × List Char × List Char) := fun s =>
      match s with
      | [] => none
      | d :: s1 =>
        match digitValue d with
        | none => none
        | some v =>
          match s1 with
          | [] => some (v, [d], [])
          | e :: s2 =>
            match digitValue e with
            | none => some (v, [d], e :: s2)
            | some w => some (10 * v + w, [d, e], s2)
    if c = 'L' then
      match body rest with
      | none => none
      | some (n, t, r) => some (n, 'L' :: t, r)
    else body (c :: rest)

/-- Scan of a format string into characters and place markers (`findArgEscapes`). -/
def argTokens : Nat → List Char → List ArgToken
  | 0, _ => []
  | _, [] => []
  | fuel + 1, c :: rest =>
    if c = '%' then
      match readEscape rest with
      | some (n, t, r) => ArgToken.marker n ('%' :: t) :: argTokens fuel r
      | none => ArgToken.lit c :: argTokens fuel rest
    else ArgToken.lit c :: argTokens fuel rest

/-- Lowest place-marker number occurring in a scanned format string. -/
def minEscape : List ArgToken → Option Nat
  | [] => none
  | ArgToken.lit _ :: ts => minEscape ts
  | ArgToken.marker n _ :: ts =>
    match minEscape ts with
    | none => some n
    | some m => some (min n m)

/-- The embedding of `QString::arg(const QString &a)`: every occurrence of the lowest-numbered place marker
is replaced by `a`; a format string without marker is returned as it is. -/
def arg (fmt : QString) (a : QString) : QString :=
  let toks := argTokens (fmt.length + 1) fmt
  match minEscape toks with
  | none => fmt
  | some m =>
    toks.flatMap fun t =>
      match t with
      | ArgToken.lit c => [c]
      | ArgToken.marker n text => if n = m then a else text

/-- Decimal text of a length, as `QString::arg(int)` renders a non-negative number. -/
def number (n : Nat) : QString := Nat.toDigits 10 n

/-- The embedding of `QString::toLatin1`: a UTF-16 code unit above 0xFF becomes `?`; a character outside the
basic plane is two code units, hence two `?`. -/
def toLatin1 (s : QString) : QByteArray :=
  s.flatMap fun c =>
    if c.toNat ≤ 0xFF then [UInt8.ofNat c.toNat]
    else if c.toNat ≤ 0xFFFF then [63]
    else [63, 63]

/-! ## The socket as the client sees it -/

inductive SocketState where
  | UnconnectedState
  | HostLookupState
  | ConnectingState
  | ConnectedState
  | BoundState
  | ListeningState
  | ClosingState
  deriving DecidableEq, Repr

inductive SocketError where
  | ConnectionRefusedError
  | RemoteHostClosedError
  | HostNotFoundError
  | SocketAccessError
  | SocketResourceError
  | SocketTimeoutError
  | DatagramTooLargeError
  | NetworkError
  | AddressInUseError
  | SocketAddressNotAvailableError
  | UnsupportedSocketOperationError
  | ProxyAuthenticationRequiredError
  | SslHandshakeFailedError
  | UnfinishedSocketOperationError
  | ProxyConnectionRefusedError
  | ProxyConnectionClosedError
  | ProxyConnectionTimeoutError
  | ProxyNotFoundError
  | ProxyProtocolError
  | UnknownSocketError
  | OperationError
  | SslInternalError
  | SslInvalidUserDataError
  | TemporaryError
  deriving DecidableEq, Repr

/-- What `IpcClient` uses of its `QTcpSocket`. -/
structure QTcpSocket where
  /-- Result of `isValid()`. -/
  valid : Bool
  /-- Result of `state()`. -/
  state : SocketState
  /-- Result of `bytesToWrite()`: bytes handed to `write` and not yet flushed. -/
  bytesToWrite : Nat
  /-- Every chunk handed to `write`, oldest first. -/
  written : List QByteArray
  deriving DecidableEq, Repr

/-- The embedding of `QIODevice::write` on the buffered socket: the chunk joins the write buffer. -/
def QTcpSocket.write (sock : QTcpSocket) (chunk : QByteArray) : QTcpSocket :=
  { sock with bytesToWrite := sock.bytesToWrite + chunk.length,
              written := sock.written ++ [chunk] }

/-! ## `IpcClient` -/

structure Package where
  m_uuid : QUuid
  m_method : QString
  m_data : QByteArray
  m_tries : Nat
  m_bytes : Int
  deriving DecidableEq, Repr

inductive Signal where
  | sentSuccessfully (uuid : QUuid)
  | sendingError (uuid : QUuid) (socketError : SocketError)
  | connectionError (socketError : SocketError)
  deriving DecidableEq, Repr

structure IpcClient where
  m_socket : QTcpSocket
  m_queue : List Package
  /-- The in-flight package; `none` is the null pointer. -/
  m_current : Option Package
  m_written : Int
  m_lastSuccess : Option QUuid
  /-- Signals emitted so far, oldest first. -/
  emitted : List Signal
  /-- Delays of the `QTimer::singleShot(ms, this, processQueue)` calls so far. -/
  timers : List Nat
  /-- Ids of the packages for which the pump called `sendPackage`, oldest first. -/
  attempts : List QUuid
  deriving DecidableEq, Repr

/-- State after the constructor `IpcClient(QTcpSocket *socket, QObject *parent)`. -/
def IpcClient.create (socket : QTcpSocket) : IpcClient :=
  { m_socket := socket, m_queue := [], m_current := none, m_written := 0,
    m_lastSuccess := none, emitted := [], timers := [], attempts := [] }

/-- Conversion of a `qint64` to `int` (`int size = sendPackage(...)`). -/
def toInt32 (x : Int) : Int := (x + 2147483648) % 4294967296 - 2147483648

/-- The embedding of `IpcClient::send`; the fresh id `QUuid::createUuid()` is the argument `uuid`. -/
def IpcClient.send (c : IpcClient) (method : QString) (data : QByteArray) (uuid : QUuid) :
    QUuid × IpcClient :=
  let pkg : Package :=
    { m_uuid := uuid, m_method := method, m_data := data, m_tries := 0, m_bytes := 0 }
  (pkg.m_uuid, { c with m_queue := c.m_queue ++ [pkg], timers := c.timers ++ [0] })

/-- The embedding of `IpcClient::sendPackage`: the result and the socket afterwards. -/
def sendPackage (sock : QTcpSocket) (method : QString) (data : QByteArray) :
    Int × QTcpSocket :=
  if !sock.valid || sock.state != SocketState.ConnectedState then (-1, sock)
  else
    let s1 := sock.write (toLatin1 (arg "Method:%1\n".toList method))
    let s2 := s1.write (toLatin1 (arg "Content-Length:%1\n".toList (number data.length)))
    let s3 := s2.write (toLatin1 "\n".toList)
    let s4 := s3.write data
    ((s4.bytesToWrite : Int), s4)

/-- The embedding of `IpcClient::onError`. -/
def IpcClient.onError (c : IpcClient) (socketError : SocketError) : IpcClient :=
  let c1 : IpcClient :=
    match c.m_current with
    | some cur =>
      { c with emitted := c.emitted ++ [Signal.sendingError cur.m_uuid socketError],
               m_current := none,
               timers := c.timers ++ [0] }
    | none => c
  if (c1.m_socket.state != SocketState.ConnectedState &&
      c1.m_socket.state != SocketState.BoundState) ||
      socketError == SocketError.RemoteHostClosedError then
    { c1 with emitted := c1.emitted ++ [Signal.connectionError socketError] }
  else c1

/-- The embedding of `IpcClient::processQueue`, the pump. `m_current` points at the head of the queue, so
`m_tries++` changes the queued package too. -/
def IpcClient.processQueue (c : IpcClient) : IpcClient :=
  match c.m_current with
  | some _ => c
  | none =>
    match c.m_queue with
    | [] => c
    | head :: rest =>
      let cur : Package := { head with m_tries := head.m_tries + 1 }
      if cur.m_tries ≥ 5 then
        let c1 := { c with m_queue := rest, m_current := some cur }
        let c2 := c1.onError SocketError.ConnectionRefusedError
        { c2 with timers := c2.timers ++ [0] }
      else
        let r := sendPackage c.m_socket cur.m_method cur.m_data
        let size : Int := toInt32 r.1
        let c1 := { c with m_socket := r.2, attempts := c.attempts ++ [cur.m_uuid] }
        if size ≠ -1 then
          { c1 with m_queue := rest, m_current := some { cur with m_bytes := size } }
        else
          { c1 with m_queue := cur :: rest, timers := c1.timers ++ [1000],
                    m_current := none }

/-- The embedding of `IpcClient::onBytesWritten`; `none` when `Q_ASSERT(m_current)` fails. -/
def IpcClient.onBytesWritten (c : IpcClient) (written : Int) : Option IpcClient :=
  match c.m_current with
  | none => none
  | some cur =>
    let w := c.m_written + written
    if w < cur.m_bytes then some { c with m_written := w }
    else
      let c1 := { c with m_written := w - cur.m_bytes,
                         emitted := c.emitted ++ [Signal.sentSuccessfully cur.m_uuid],
                         m_lastSuccess := some cur.m_uuid,
                         m_current := none }
      some c1.processQueue

/-- What can happen to a client: the public call `send`, the slots, and a change of the
socket made by the transport (connection established or lost, buffer flushed). -/
inductive Event where
  | send (method : QString) (data : QByteArray) (uuid : QUuid)
  | processQueue
  | onBytesWritten (written : Int)
  | onError (socketError : SocketError)
  | socketChanged (valid : Bool) (state : SocketState) (bytesToWrite : Nat)
  deriving DecidableEq, Repr

def IpcClient.step (c : IpcClient) : Event → Option IpcClient
  | Event.send method data uuid => some (c.send method data uuid).2
  | Event.processQueue => some c.processQueue
  | Event.onBytesWritten written => c.onBytesWritten written
  | Event.onError socketError => some (c.onError socketError)
  | Event.socketChanged valid state bytesToWrite =>
    some { c with m_socket := { c.m_socket with valid := valid, state := state,
                                                bytesToWrite := bytesToWrite } }

/-- Runs the events in order; `none` as soon as an assertion fails. -/
def IpcClient.run (c : IpcClient) : List Event → Option IpcClient
  | [] => some c
  | e :: es =>
    match c.step e with
    | none => none
    | some c1 => c1.run es

/-- Ids carried by the per-command notifications, in emission order. -/
def notifiedIds : List Signal → List QUuid
  | [] => []
  | Signal.sentSuccessfully u :: ss => u :: notifiedIds ss
  | Signal.sendingError u _ :: ss => u :: notifiedIds ss
  | Signal.connectionError _ :: ss => notifiedIds ss

/-- Ids returned by the `send` calls of an event sequence, in call order. -/
def sentIds : List Event → List QUuid
  | [] => []
  | Event.send _ _ uuid :: es => uuid :: sentIds es
  | _ :: es => sentIds es

/-- Ids of the commands the client still owns: the in-flight one, then the queue. -/
def IpcClient.ownedIds (c : IpcClient) : List QUuid :=
  (match c.m_current with
   | some cur => [cur.m_uuid]
   | none => []) ++ c.m_queue.map Package.m_uuid

/-- The ledger of a client: ids already notified, then the ids it still owns. -/
def IpcClient.ledger (c : IpcClient) : List QUuid := notifiedIds c.emitted ++ c.ownedIds

/-- A connected socket with an empty write buffer. -/
def demoSocket : QTcpSocket :=
  { valid := true, state := SocketState.ConnectedState, bytesToWrite := 0, written := [] }

/-- Two commands on a connected socket: the first is confirmed, the second hits an error. -/
def demoEvents : List Event :=
  [Event.send "a".toList [] 7, Event.processQueue, Event.onBytesWritten 100,
   Event.send "b".toList [1, 2] 8, Event.processQueue,
   Event.onError SocketError.SocketTimeoutError]

/-- A command fails in flight after 10 of its 27 bytes were confirmed (the socket stays
connected, 17 bytes remain buffered); the next command is then sent: its frame of 27 bytes
joins the 17 buffered ones. -/
def staleEvents : List Event :=
  [Event.send "a".toList [] 7, Event.processQueue,
   Event.socketChanged true SocketState.ConnectedState 17, Event.onBytesWritten 10,
   Event.onError SocketError.SocketTimeoutError,
   Event.send "b".toList [] 8, Event.processQueue]

/-! ## The receiving side of the wire format -/

/-- Modelled from the spec: the frame decoder (the receiving class `IpcConnection` is not
among the sources). `readLine` reads one header line, up to and without the line feed;
`none` when no line feed has arrived yet. -/
def readLine : QByteArray → Option (QByteArray × QByteArray)
  | [] => none
  | b :: bs =>
    if b = 10 then some ([], bs)
    else
      match readLine bs with
      | none => none
      | some (line, rest) => some (b :: line, rest)

/-- Modelled from the spec: a header line is a field name, the separator `:` and the
value; the line is split at its first separator. -/
def splitField : QByteArray → Option (QByteArray × QByteArray)
  | [] => none
  | b :: bs =>
    if b = 58 then some ([], bs)
    else
      match splitField bs with
      | none => none
      | some (name, value) => some (b :: name, value)

/-- Modelled from the spec: "read header lines until a blank line". Returns the fields
read and the bytes after the blank line. -/
def readHeader : Nat → QByteArray → List (QByteArray × QByteArray) →
    Option (List (QByteArray × QByteArray) × QByteArray)
  | 0, _, _ => none
  | fuel + 1, bs, fields =>
    match readLine bs with
    | none => none
    | some (line, rest) =>
      if line = [] then some (fields, rest)
      else
        match splitField line with
        | none => none
        | some field => readHeader fuel rest (fields ++ [field])

/-- Modelled from the spec: value of a run of ASCII decimal digits, most significant
first, continuing from `acc`. -/
def parseDecimal : Nat → QByteArray → Option Nat
  | acc, [] => some acc
  | acc, b :: bs =>
    if 48 ≤ b.toNat ∧ b.toNat ≤ 57 then parseDecimal (acc * 10 + (b.toNat - 48)) bs
    else none

/-- Modelled from the spec: "parse the declared length", a non-empty decimal number. -/
def parseLength (bs : QByteArray) : Option Nat :=
  if bs = [] then none else parseDecimal 0 bs

/-- Modelled from the spec: the decoder reads the method name back as Latin-1 text
(`QString::fromLatin1`): every byte is the character with that code. -/
def fromLatin1 (bs : QByteArray) : QString := bs.map fun b => Char.ofNat b.toNat

/-- Modelled from the spec: the decoder of one frame, "read header lines until a blank
line, parse the declared length, then read exactly that many payload bytes". The result
is `none` while the frame is incomplete (or when the header is not a header). -/
def decodeFrame (bs : QByteArray) : Option (QString × QByteArray) :=
  match readHeader (bs.length + 1) bs [] with
  | none => none
  | some (fields, body) =>
    match fields.lookup (toLatin1 "Method".toList),
          fields.lookup (toLatin1 "Content-Length".toList) with
    | some m, some l =>
      match parseLength l with
      | none => none
      | some n => if body.length < n then none else some (fromLatin1 m, body.take n)
    | _, _ => none

/-- The bytes one call of `sendPackage` hands to the socket, in write order. -/
def frameOf (sock : QTcpSocket) (method : QString) (data : QByteArray) : QByteArray :=
  ((sendPackage sock method data).2.written.drop sock.written.length).flatten

/-! ## Instance election (`Application::isMaster`) -/

/-- The operations of `QSharedMemory` on the lock key, over a world `W` that holds whatever
the operating system keeps for that key. `attach` and `create` return their success. -/
structure SharedMemoryApi (W : Type) where
  attach : W → Bool × W
  detach : W → W
  create : W → Bool × W

/-- A lock operation together with its outcome. -/
inductive LockOp where
  | attach (ok : Bool)
  | detach
  | create (ok : Bool)
  deriving DecidableEq, Repr

/-- The function-local statics of `isMaster`: `lock` (is the pointer set) and `retv`. -/
structure Statics where
  lock : Bool
  retv : Bool
  deriving DecidableEq, Repr

/-- The block `{ QSharedMemory(key).attach(); }` compiled under `Q_OS_UNIX`: a temporary
instance attaches and its destructor detaches again if the attach succeeded. -/
def staleProbe {W : Type} (api : SharedMemoryApi W) (unix : Bool) (w : W) : W × List LockOp :=
  if unix then
    let r := api.attach w
    if r.1 then (api.detach r.2, [LockOp.attach true, LockOp.detach])
    else (r.2, [LockOp.attach false])
  else (w, [])

/-- The embedding of `Application::isMaster`. Arguments: the platform (`Q_OS_UNIX` or not), the option
`noRemote`, the statics and the world. Result: the returned `bool` (`true` is Master),
the statics and world afterwards, and the lock operations performed, oldest first. -/
def isMaster {W : Type} (api : SharedMemoryApi W) (unix : Bool) (noRemote : Bool)
    (st : Statics) (w : W) : Bool × Statics × W × List LockOp :=
  if noRemote then (true, st, w, [])
  else if st.lock then (st.retv, st, w, [])
  else
    let p := staleProbe api unix w
    let a := api.attach p.1
    if a.1 then
      (false, { lock := true, retv := false }, api.detach a.2,
        p.2 ++ [LockOp.attach true, LockOp.detach])
    else
      let cr := api.create a.2
      if !cr.1 then
        (false, { lock := true, retv := false }, cr.2,
          p.2 ++ [LockOp.attach false, LockOp.create false])
      else
        (true, { lock := true, retv := true }, cr.2,
          p.2 ++ [LockOp.attach false, LockOp.create true])

/-- Where a process stands inside its first call of `isMaster` (option `noRemote` unset),
one lock operation per step. -/
inductive Pc where
  /-- Before the stale-segment probe. -/
  | start
  /-- The temporary instance has tried to attach; its destructor has not run yet. -/
  | probed (attached : Bool)
  /-- Before `lock->attach(QSharedMemory::ReadOnly)`. -/
  | beforeAttach
  /-- The attach succeeded; before `lock->detach()`. -/
  | attached
  /-- The attach failed; before `lock->create(1)`. -/
  | beforeCreate
  /-- Returned `retv`. -/
  | done (retv : Bool)
  deriving DecidableEq, Repr

/-- One step of a process: the next lock operation of `isMaster`. -/
def procStep {W : Type} (api : SharedMemoryApi W) (unix : Bool) (pc : Pc) (w : W) : Pc × W :=
  match pc with
  | Pc.start =>
    if unix then
      let r := api.attach w
      (Pc.probed r.1, r.2)
    else (Pc.beforeAttach, w)
  | Pc.probed true => (Pc.beforeAttach, api.detach w)
  | Pc.probed false => (Pc.beforeAttach, w)
  | Pc.beforeAttach =>
    let a := api.attach w
    if a.1 then (Pc.attached, a.2) else (Pc.beforeCreate, a.2)
  | Pc.attached => (Pc.done false, api.detach w)
  | Pc.beforeCreate =>
    let cr := api.create w
    (Pc.done cr.1, cr.2)
  | Pc.done retv => (Pc.done retv, w)

/-- Modelled from the spec: the named, OS-visible exclusive resource behind `QSharedMemory`
(Qt and the operating system are not among the sources), without stale segments and
without permission failures. The world is the number of instances attached to the
segment; the segment exists while that number is positive. `attach` succeeds when the
segment exists, `create` succeeds when it does not and attaches the creator, `detach`
releases one attachment. -/
def segmentApi : SharedMemoryApi Nat :=
  { attach := fun n => if 0 < n then (true, n + 1) else (false, n),
    detach := fun n => n - 1,
    create := fun n => if n = 0 then (true, 1) else (false, n) }

/-- A lock resource that nobody holds and that cannot be created (permission denied). -/
def deniedApi : SharedMemoryApi Unit :=
  { attach := fun w => (false, w), detach := fun w => w, create := fun w => (false, w) }

/-- Two processes and the segment they compete for. -/
structure Race where
  segment : Nat
  first : Pc
  second : Pc
  deriving DecidableEq, Repr

/-- Both processes about to call `isMaster`, no segment. -/
def Race.init : Race := { segment := 0, first := Pc.start, second := Pc.start }

/-- The scheduler lets one process perform its next lock operation: `false` the first
process, `true` the second. -/
def Race.step (unix : Bool) (r : Race) (who : Bool) : Race :=
  if who then
    let s := procStep segmentApi unix r.second r.segment
    { r with second := s.1, segment := s.2 }
  else
    let s := procStep segmentApi unix r.first r.segment
    { r with first := s.1, segment := s.2 }

/-- An interleaving, given as the list of scheduler choices. -/
def Race.run (unix : Bool) (r : Race) (schedule : List Bool) : Race :=
  schedule.foldl (Race.step unix) r

/-- Attachments a process holds at a program point. -/
def Pc.holds : Pc → Nat
  | Pc.probed true => 1
  | Pc.attached => 1
  | Pc.done true => 1
  | _ => 0

/-- Lock operations a process still has to perform. -/
def Pc.remaining : Pc → Nat
  | Pc.start => 4
  | Pc.probed _ => 3
  | Pc.beforeAttach => 2
  | Pc.attached => 1
  | Pc.beforeCreate => 1
  | Pc.done _ => 0

/-- Invariant of the race. -/
def Race.Inv (r : Race) : Prop :=
  r.segment = r.first.holds + r.second.holds ∧
  (0 < r.segment → r.first = Pc.done true ∨ r.second = Pc.done true) ∧
  (r.first = Pc.done false → r.second = Pc.done true) ∧
  (r.second = Pc.done false → r.first = Pc.done true) ∧
  ¬ (r.first = Pc.done true ∧ r.second = Pc.done true)

/-! ## Names derived from the identity -/

/-- The key of the session lock, as `Application::isMaster` builds it from
`organizationDomain()`, `organizationName()`, `applicationName()` and `userName()`. -/
def lockKey (organizationDomain organizationName applicationName userName : QString) :
    QString :=
  arg (arg (arg "%1.%2-%3-lock".toList
    (if organizationDomain.isEmpty then organizationName else organizationDomain))
    applicationName) userName

/-- The name of the argument-forwarding channel, `Application::serverName`. -/
def serverName (organizationDomain organizationName applicationName userName : QString) :
    QString :=
  arg (arg (arg "%1.%2-%3-app".toList
    (if organizationDomain.isEmpty then organizationName else organizationDomain))
    applicationName) userName

/-! ## Closing the connection -/

/-- What `QAbstractSocket::disconnectFromHost` does to the socket record: with data still
buffered the socket enters `ClosingState`, otherwise `UnconnectedState`. It raises no
error, so no slot of the client runs. -/
def QTcpSocket.disconnectFromHost (sock : QTcpSocket) : QTcpSocket :=
  { sock with state := if 0 < sock.bytesToWrite then SocketState.ClosingState
                       else SocketState.UnconnectedState }

/-- The embedding of `IpcClient::disconnectFromServer`: the call is passed to the socket. -/
def IpcClient.disconnectFromServer (c : IpcClient) : IpcClient :=
  { c with m_socket := c.m_socket.disconnectFromHost }

/-- A command is handed to a connected socket and is in flight. -/
def inFlightEvents : List Event :=
  [Event.send "a".toList [] 7, Event.processQueue]

/-- A command is in flight with its 27 bytes buffered when the socket reports a timeout;
afterwards the socket flushes the 27 bytes and reports them written. -/
def lateConfirmationEvents : List Event :=
  [Event.send "a".toList [] 7, Event.processQueue,
   Event.onError SocketError.SocketTimeoutError,
   Event.socketChanged true SocketState.ConnectedState 0, Event.onBytesWritten 27]

/-- A command is in flight with its 27 bytes buffered when the socket reports a timeout. -/
def errorInFlightEvents : List Event :=
  [Event.send "a".toList [] 7, Event.processQueue,
   Event.onError SocketError.SocketTimeoutError]

/-! ## Attempt counters -/

/-- The commands a client holds: the in-flight one, then the queue. -/
def IpcClient.owned (c : IpcClient) : List Package := c.m_current.toList ++ c.m_queue

/-- The package `q` is the command `p` at a later time: same id, method and payload, and
an attempt counter that is not smaller. -/
def SameCommand (p q : Package) : Prop :=
  q.m_uuid = p.m_uuid ∧ q.m_method = p.m_method ∧ q.m_data = p.m_data ∧
  p.m_tries ≤ q.m_tries

/-- How the held commands may change in one step: some commands leave at the front, the
others stay in order with counters that did not decrease, and new commands, never tried,
join at the back. -/
def Advances (old new : List Package) : Prop :=
  ∃ (k : Nat) (front extra : List Package),
    List.Forall₂ SameCommand (old.drop k) front ∧ new = front ++ extra ∧
    ∀ p ∈ extra, p.m_tries = 0

/-- Every queued command has a counter below the ceiling 5, every command behind the head
has counter 0, and the in-flight command has a counter below 5. -/
def CountersInRange (c : IpcClient) : Prop :=
  (∀ p ∈ c.m_queue, p.m_tries < 5) ∧ (∀ p ∈ c.m_queue.tail, p.m_tries = 0) ∧
  ∀ p, c.m_current = some p → p.m_tries < 5

/-- On a socket that is not connected: a command is sent and pumped twice, then a second
command is sent. -/
def retryEvents : List Event :=
  [Event.send "a".toList [] 7, Event.processQueue, Event.processQueue,
   Event.send "b".toList [1] 8]

/-! ## Forwarding the arguments to the master -/

/-- A `QString` as its UTF-16 code units, which is what the data stream transports. -/
abbrev QStringData := List UInt16

/-- Code units of a text whose characters all lie in the basic plane. -/
def utf16 (s : String) : QStringData := s.toList.map fun c => UInt16.ofNat c.toNat

inductive Status where
  | Ok
  | ReadPastEnd
  | ReadCorruptData
  deriving DecidableEq, Repr

/-- Modelled from the spec: the reading end of the "length-prefixed encoding" of the
argument vector (`QDataStream` belongs to Qt and is not among the sources): the bytes not
yet read and the stream status. -/
structure QDataStream where
  data : QByteArray
  status : Status
  deriving DecidableEq, Repr

/-- Modelled from the spec: `QDataStream::setStatus`; the first status other than `Ok`
sticks. -/
def QDataStream.setStatus (s : QDataStream) (status : Status) : QDataStream :=
  if s.status = Status.Ok then { s with status := status } else s

/-- Modelled from the spec: a length field, `quint32` in big-endian order. -/
def putU32 (n : Nat) : QByteArray :=
  [UInt8.ofNat (n % 4294967296 / 16777216), UInt8.ofNat (n % 4294967296 / 65536),
   UInt8.ofNat (n % 4294967296 / 256), UInt8.ofNat (n % 4294967296)]

/-- Modelled from the spec: one UTF-16 code unit in big-endian order. -/
def putUnit (u : UInt16) : QByteArray := [UInt8.ofNat (u.toNat / 256), UInt8.ofNat u.toNat]

/-- Modelled from the spec: a length-prefixed string, the byte count followed by the code
units (`operator<<(QDataStream &, const QString &)`). -/
def writeQString (str : QStringData) : QByteArray :=
  putU32 (2 * str.length) ++ str.flatMap putUnit

/-- Modelled from the spec: "a count followed by length-prefixed strings"
(`operator<<(QDataStream &, const QStringList &)`). -/
def writeQStringList (list : List QStringData) : QByteArray :=
  putU32 list.length ++ list.flatMap writeQString

/-- Modelled from the spec: reading a length field; with fewer than four bytes left the
value is 0 and the status becomes `ReadPastEnd`. -/
def readU32 (s : QDataStream) : Nat × QDataStream :=
  match s.data with
  | b0 :: b1 :: b2 :: b3 :: rest =>
    (b0.toNat * 16777216 + b1.toNat * 65536 + b2.toNat * 256 + b3.toNat,
     { s with data := rest })
  | _ => (0, ({ s with data := [] } : QDataStream).setStatus Status.ReadPastEnd)

/-- Modelled from the spec: code units from big-endian byte pairs. -/
def getUnits : QByteArray → QStringData
  | hi :: lo :: rest => UInt16.ofNat (hi.toNat * 256 + lo.toNat) :: getUnits rest
  | _ => []

/-- Modelled from the spec: reading a length-prefixed string
(`operator>>(QDataStream &, QString &)`): the byte count 0xFFFFFFFF stands for the null
string, an odd count is corrupt data, and fewer bytes than declared give `ReadPastEnd`
and an empty string. -/
def readQString (s : QDataStream) : QStringData × QDataStream :=
  let r := readU32 s
  if r.1 = 0xFFFFFFFF then ([], r.2)
  else if 0 < r.1 then
    if r.1 % 2 = 1 then ([], r.2.setStatus Status.ReadCorruptData)
    else if r.2.data.length < r.1 then
      ([], ({ r.2 with data := [] } : QDataStream).setStatus Status.ReadPastEnd)
    else (getUnits (r.2.data.take r.1), { r.2 with data := r.2.data.drop r.1 })
  else ([], r.2)

/-- Modelled from the spec: the loop reading `n` strings into the list `c`; it stops with
an empty list as soon as the status is not `Ok`. -/
def readItems : Nat → QDataStream → List QStringData → List QStringData × QDataStream
  | 0, s, c => (c, s)
  | n + 1, s, c =>
    let r := readQString s
    if r.2.status ≠ Status.Ok then ([], r.2)
    else readItems n r.2 (c ++ [r.1])

/-- Modelled from the spec: reading the count and then that many strings
(`operator>>(QDataStream &, QStringList &)`). -/
def readQStringList (s : QDataStream) : List QStringData × QDataStream :=
  let r := readU32 s
  readItems r.1 r.2 []

/-- What the master does with a connection, as far as the handler of `readyRead` decides
it. -/
inductive Action where
  | parseArguments (arguments : List QStringData)
  | applyOptions
  | close
  deriving DecidableEq, Repr

/-- One incoming connection of `MasterApplication::listenForArguments`: the `QBuffer`
that collects what has arrived, and the actions taken so far. -/
structure Connection where
  buffer : QByteArray
  actions : List Action
  deriving DecidableEq, Repr

/-- The handler of `QLocalSocket::readyRead` in `MasterApplication::listenForArguments`,
with `chunk` the result of `connection->readAll()`. The buffer is read from its start
each time; `none` when `Q_ASSERT(in.status() == QDataStream::Ok)` fails. The final
`activateWindow()`, which depends on the parsed options, is left out. -/
def Connection.onReadyRead (conn : Connection) (chunk : QByteArray) : Option Connection :=
  let buffer := conn.buffer ++ chunk
  let r := readQStringList { data := buffer, status := Status.Ok }
  if r.2.status = Status.ReadPastEnd then some { conn with buffer := buffer }
  else if r.2.status ≠ Status.Ok then none
  else some { buffer := buffer,
              actions := conn.actions ++
                [Action.parseArguments r.1, Action.applyOptions, Action.close] }

/-- The `readyRead` events for the given chunks, in order. -/
def Connection.receive (conn : Connection) : List QByteArray → Option Connection
  | [] => some conn
  | chunk :: chunks =>
    match conn.onReadyRead chunk with
    | none => none
    | some conn1 => conn1.receive chunks

/-- The bytes `SlaveApplication::forwardArguments` writes once connected:
`out << arguments()`. -/
def forwardArguments (arguments : List QStringData) : QByteArray := writeQStringList arguments

/-- The argument vector of the example. -/
def demoArguments : List QStringData := [utf16 "--stayontop", utf16 "/tmp/proj"]

/-! # Theorems -/

/-! ## Lemmas on the notification order -/

theorem notifiedIds_append (a b : List Signal) :
    notifiedIds (a ++ b) = notifiedIds a ++ notifiedIds b := by
  induction a with
  | nil => rfl
  | cons s a ih => cases s <;> simp [notifiedIds, ih]

theorem sentIds_append (a b : List Event) : sentIds (a ++ b) = sentIds a ++ sentIds b := by
  induction a with
  | nil => rfl
  | cons e a ih => cases e <;> simp [sentIds, ih]

theorem ledger_onError (c : IpcClient) (e : SocketError) : (c.onError e).ledger = c.ledger := by
  unfold IpcClient.onError IpcClient.ledger IpcClient.ownedIds
  cases h : c.m_current <;> simp only [] <;> split <;>
    simp [notifiedIds_append, notifiedIds, h]

theorem ledger_processQueue (c : IpcClient) : c.processQueue.ledger = c.ledger := by
  unfold IpcClient.processQueue
  cases h : c.m_current with
  | some p => rfl
  | none =>
    cases hq : c.m_queue with
    | nil => rfl
    | cons head rest =>
      simp only []
      split
      · have := ledger_onError { c with m_queue := rest, m_current := some { head with m_tries := head.m_tries + 1 } } SocketError.ConnectionRefusedError
        simp only [IpcClient.ledger, IpcClient.ownedIds] at this ⊢
        simp only [this, h, hq]
        simp
      · split <;> simp [IpcClient.ledger, IpcClient.ownedIds, h, hq]

theorem ledger_step (c c1 : IpcClient) (e : Event) (h : c.step e = some c1) :
    c1.ledger = c.ledger ++ sentIds [e] := by
  cases e with
  | send m d u =>
    simp only [IpcClient.step, IpcClient.send, Option.some.injEq] at h
    subst h
    simp [IpcClient.ledger, IpcClient.ownedIds, sentIds]
  | processQueue =>
    simp only [IpcClient.step, Option.some.injEq] at h
    subst h
    simp [ledger_processQueue, sentIds]
  | onBytesWritten w =>
    simp only [IpcClient.step, IpcClient.onBytesWritten] at h
    cases hc : c.m_current with
    | none => simp [hc] at h
    | some cur =>
      simp only [hc] at h
      split at h
      · simp only [Option.some.injEq] at h
        subst h
        simp [IpcClient.ledger, IpcClient.ownedIds, sentIds, hc]
      · simp only [Option.some.injEq] at h
        subst h
        rw [ledger_processQueue]
        simp [IpcClient.ledger, IpcClient.ownedIds, sentIds, hc, notifiedIds_append, notifiedIds]
  | onError e =>
    simp only [IpcClient.step, Option.some.injEq] at h
    subst h
    simp [ledger_onError, sentIds]
  | socketChanged v s b =>
    simp only [IpcClient.step, Option.some.injEq] at h
    subst h
    simp [IpcClient.ledger, IpcClient.ownedIds, sentIds]

theorem ledger_run (evs : List Event) : ∀ (c c1 : IpcClient), c.run evs = some c1 →
    c1.ledger = c.ledger ++ sentIds evs := by
  induction evs with
  | nil =>
    intro c c1 h
    simp only [IpcClient.run, Option.some.injEq] at h
    subst h
    simp [sentIds]
  | cons e es ih =>
    intro c c1 h
    simp only [IpcClient.run] at h
    cases hs : c.step e with
    | none => simp [hs] at h
    | some c2 =>
      simp only [hs] at h
      rw [ih c2 c1 h, ledger_step c c2 e hs, List.append_assoc, ← sentIds_append]
      rfl

theorem emitted_onError (c : IpcClient) (e : SocketError) :
    ∃ more, (c.onError e).emitted = c.emitted ++ more := by
  unfold IpcClient.onError
  cases h : c.m_current <;> simp only [] <;> split <;> simp

theorem emitted_processQueue (c : IpcClient) :
    ∃ more, c.processQueue.emitted = c.emitted ++ more := by
  unfold IpcClient.processQueue
  cases h : c.m_current with
  | some p => exact ⟨[], by simp⟩
  | none =>
    cases hq : c.m_queue with
    | nil => exact ⟨[], by simp⟩
    | cons head rest =>
      simp only []
      split
      · exact emitted_onError _ _
      · split <;> exact ⟨[], by simp⟩

theorem emitted_step (c c1 : IpcClient) (e : Event) (h : c.step e = some c1) :
    ∃ more, c1.emitted = c.emitted ++ more := by
  cases e with
  | send m d u =>
    simp only [IpcClient.step, IpcClient.send, Option.some.injEq] at h
    subst h
    exact ⟨[], by simp⟩
  | processQueue =>
    simp only [IpcClient.step, Option.some.injEq] at h
    subst h
    exact emitted_processQueue c
  | onBytesWritten w =>
    simp only [IpcClient.step, IpcClient.onBytesWritten] at h
    cases hc : c.m_current with
    | none => simp [hc] at h
    | some cur =>
      simp only [hc] at h
      split at h
      · simp only [Option.some.injEq] at h
        subst h
        exact ⟨[], by simp⟩
      · simp only [Option.some.injEq] at h
        subst h
        obtain ⟨more, hm⟩ := emitted_processQueue
          { c with m_written := c.m_written + w - cur.m_bytes,
                   emitted := c.emitted ++ [Signal.sentSuccessfully cur.m_uuid],
                   m_lastSuccess := some cur.m_uuid,
                   m_current := none }
        exact ⟨Signal.sentSuccessfully cur.m_uuid :: more, by rw [hm]; simp⟩
  | onError e =>
    simp only [IpcClient.step, Option.some.injEq] at h
    subst h
    exact emitted_onError c e
  | socketChanged v s b =>
    simp only [IpcClient.step, Option.some.injEq] at h
    subst h
    exact ⟨[], by simp⟩

theorem emitted_run (evs : List Event) : ∀ (c c1 : IpcClient), c.run evs = some c1 →
    ∃ more, c1.emitted = c.emitted ++ more := by
  induction evs with
  | nil =>
    intro c c1 h
    simp only [IpcClient.run, Option.some.injEq] at h
    subst h
    exact ⟨[], by simp⟩
  | cons e es ih =>
    intro c c1 h
    simp only [IpcClient.run] at h
    cases hs : c.step e with
    | none => simp [hs] at h
    | some c2 =>
      simp only [hs] at h
      obtain ⟨m1, h1⟩ := emitted_step c c2 e hs
      obtain ⟨m2, h2⟩ := ih c2 c1 h
      exact ⟨m1 ++ m2, by rw [h2, h1, List.append_assoc]⟩

/-! ## C1: notifications follow the order of `send` -/

/-- C1. From the client the constructor builds, after any sequence of `send`,
`processQueue`, `onBytesWritten`, `onError` (and socket changes) that trips no assertion:
the ids carried by the `sentSuccessfully` / `sendingError` signals emitted so far, followed
by the id of the in-flight command and the ids of the queued commands, are exactly the ids
returned by `send`, in call order. So the k-th notification carries the k-th id returned by
`send`; and since the signal log of any continuation extends the present one, no command is
notified before an earlier one and none twice. -/
theorem C1_notifications_in_send_order (socket : QTcpSocket) (evs : List Event)
    (c : IpcClient) (h : (IpcClient.create socket).run evs = some c) :
    notifiedIds c.emitted ++ c.ownedIds = sentIds evs ∧
    (∀ (more : List Event) (c1 : IpcClient), c.run more = some c1 →
      (∃ later, c1.emitted = c.emitted ++ later) ∧
      ∃ ids, notifiedIds c1.emitted = notifiedIds c.emitted ++ ids ∧
        ids ++ c1.ownedIds = c.ownedIds ++ sentIds more) := by
  have h0 := ledger_run evs _ _ h
  refine ⟨by simpa [IpcClient.ledger, IpcClient.create, IpcClient.ownedIds, notifiedIds]
    using h0, ?_⟩
  intro more c1 h1
  obtain ⟨later, hl⟩ := emitted_run more c c1 h1
  refine ⟨⟨later, hl⟩, notifiedIds later, by rw [hl, notifiedIds_append], ?_⟩
  have h2 := ledger_run more c c1 h1
  simp only [IpcClient.ledger, hl, notifiedIds_append, List.append_assoc] at h2
  exact List.append_cancel_left h2

/-- C1 at a concrete run: two commands, the first completes, the second fails. -/
theorem C1_notifications_in_send_order_witness :
    ∃ c, (IpcClient.create demoSocket).run demoEvents = some c ∧
      notifiedIds c.emitted = [7, 8] ∧
      (notifiedIds c.emitted ++ c.ownedIds = sentIds demoEvents ∧
       (∀ (more : List Event) (c1 : IpcClient), c.run more = some c1 →
         (∃ later, c1.emitted = c.emitted ++ later) ∧
         ∃ ids, notifiedIds c1.emitted = notifiedIds c.emitted ++ ids ∧
           ids ++ c1.ownedIds = c.ownedIds ++ sentIds more)) :=
  ⟨_, rfl, rfl, C1_notifications_in_send_order demoSocket demoEvents _ rfl⟩

/-! ## C2: a transport that rejects every write -/

theorem toInt32_neg_one : toInt32 (-1) = -1 := by decide

/-- C2. Take any client with an idle in-flight slot whose socket is not connected (so
`sendPackage` returns -1) and whose queue starts with a command never tried before
(`m_tries = 0`). Each of the first four pumps hands that command to `sendPackage` and
leaves it at the head, after which it has `m_tries = 4` and nothing was signalled; the
fifth pump raises `m_tries` to 5, removes the command and emits `sendingError` for it
without calling `sendPackage`. So the command gets four send attempts, not five.
Afterwards the client holds the remaining commands only, so no later pump touches the
failed one. -/
theorem C2_rejected_command_is_attempted_four_times (method : QString) (data : QByteArray)
    (uuid : QUuid) (bytes : Int) (rest : List Package) (valid : Bool) (bytesToWrite : Nat)
    (wire : List QByteArray) (written : Int) (lastSuccess : Option QUuid)
    (emitted : List Signal) (timers : List Nat) (attempts : List QUuid) :
    let sock : QTcpSocket := { valid := valid, state := SocketState.UnconnectedState,
                               bytesToWrite := bytesToWrite, written := wire }
    let pkg : Package := { m_uuid := uuid, m_method := method, m_data := data,
                           m_tries := 0, m_bytes := bytes }
    let c0 : IpcClient := { m_socket := sock, m_queue := pkg :: rest, m_current := none,
                            m_written := written, m_lastSuccess := lastSuccess,
                            emitted := emitted, timers := timers, attempts := attempts }
    let c4 := c0.processQueue.processQueue.processQueue.processQueue
    let c5 := c4.processQueue
    c4.attempts = attempts ++ [uuid, uuid, uuid, uuid] ∧
    c4.m_queue = { pkg with m_tries := 4 } :: rest ∧
    c4.m_current = none ∧
    c4.emitted = emitted ∧
    c4.timers = timers ++ [1000, 1000, 1000, 1000] ∧
    c5.attempts = attempts ++ [uuid, uuid, uuid, uuid] ∧
    c5.m_queue = rest ∧ c5.m_current = none ∧
    c5.emitted = emitted ++ [Signal.sendingError uuid SocketError.ConnectionRefusedError,
                             Signal.connectionError SocketError.ConnectionRefusedError] ∧
    c5.timers = timers ++ [1000, 1000, 1000, 1000, 0, 0] ∧
    c5.m_socket = sock ∧
    c5.ownedIds = rest.map Package.m_uuid := by
  simp [IpcClient.processQueue, sendPackage, IpcClient.onError, toInt32_neg_one,
    IpcClient.ownedIds]

/-! ## C3: byte confirmations -/

/-- C3. After `staleEvents` the second command (id 8) is in flight with 44 pending bytes
while the accumulator still holds the 10 bytes confirmed for the failed first command; a
confirmation of 34 bytes then emits `sentSuccessfully 8`, although only 34 of the 44
pending bytes were confirmed since that command became in flight. -/
theorem C3_stale_accumulator_completes_early :
    ∃ c cur, (IpcClient.create demoSocket).run staleEvents = some c ∧
      c.m_current = some cur ∧ cur.m_uuid = 8 ∧ cur.m_bytes = 44 ∧ c.m_written = 10 ∧
      c.emitted = [Signal.sendingError 7 SocketError.SocketTimeoutError] ∧
      (c.onBytesWritten 34).map IpcClient.emitted =
        some [Signal.sendingError 7 SocketError.SocketTimeoutError,
              Signal.sentSuccessfully 8] ∧
      (34 : Int) < cur.m_bytes :=
  ⟨_, _, rfl, rfl, rfl, rfl, rfl, rfl, rfl, by decide⟩

/-! ## C4: the bytes of a frame -/

theorem toLatin1_append (a b : QString) : toLatin1 (a ++ b) = toLatin1 a ++ toLatin1 b := by
  simp [toLatin1]

theorem arg_method (method : QString) :
    arg "Method:%1\n".toList method = "Method:".toList ++ method ++ "\n".toList := by
  rfl

theorem arg_contentLength (len : QString) :
    arg "Content-Length:%1\n".toList len = "Content-Length:".toList ++ len ++ "\n".toList := by
  rfl

/-- C4. On a valid, connected socket `sendPackage` appends chunks to the socket whose
concatenation is `Method:` ++ method ++ LF ++ `Content-Length:` ++ decimal length of the
payload ++ LF ++ LF ++ payload (text in Latin-1, payload verbatim), and returns the
socket buffer size grown by the length of that frame. -/
theorem C4_wire_frame (sock : QTcpSocket) (method : QString) (data : QByteArray)
    (hvalid : sock.valid = true) (hstate : sock.state = SocketState.ConnectedState) :
    ∃ chunks : List QByteArray,
      (sendPackage sock method data).2.written = sock.written ++ chunks ∧
      chunks.flatten =
        toLatin1 "Method:".toList ++ toLatin1 method ++ toLatin1 "\n".toList ++
        toLatin1 "Content-Length:".toList ++ toLatin1 (Nat.repr data.length).toList ++
        toLatin1 "\n".toList ++ toLatin1 "\n".toList ++ data ∧
      (sendPackage sock method data).1 =
        ((sock.bytesToWrite + chunks.flatten.length : Nat) : Int) := by
  refine ⟨[toLatin1 (arg "Method:%1\n".toList method),
           toLatin1 (arg "Content-Length:%1\n".toList (number data.length)),
           toLatin1 "\n".toList, data], ?_, ?_, ?_⟩
  · simp [sendPackage, hvalid, hstate, QTcpSocket.write]
  · rw [arg_method, arg_contentLength]
    simp only [toLatin1_append, number, Nat.repr, List.asString]
    simp [List.flatten]
  · simp [sendPackage, hvalid, hstate, QTcpSocket.write]
    omega

/-- C4 at `ping()` with a three-byte payload, the frame spelled out byte by byte. -/
theorem C4_wire_frame_witness :
    (toLatin1 "Method:".toList ++ toLatin1 "ping()".toList ++ toLatin1 "\n".toList ++
        toLatin1 "Content-Length:".toList ++
        toLatin1 (Nat.repr [(7 : UInt8), 0, 255].length).toList ++
        toLatin1 "\n".toList ++ toLatin1 "\n".toList ++ [7, 0, 255] =
      [77, 101, 116, 104, 111, 100, 58, 112, 105, 110, 103, 40, 41, 10,
       67, 111, 110, 116, 101, 110, 116, 45, 76, 101, 110, 103, 116, 104, 58, 51, 10,
       10, 7, 0, 255]) ∧
    ∃ chunks : List QByteArray,
      (sendPackage demoSocket "ping()".toList [7, 0, 255]).2.written =
        demoSocket.written ++ chunks ∧
      chunks.flatten =
        toLatin1 "Method:".toList ++ toLatin1 "ping()".toList ++ toLatin1 "\n".toList ++
        toLatin1 "Content-Length:".toList ++
        toLatin1 (Nat.repr [(7 : UInt8), 0, 255].length).toList ++
        toLatin1 "\n".toList ++ toLatin1 "\n".toList ++ [7, 0, 255] ∧
      (sendPackage demoSocket "ping()".toList [7, 0, 255]).1 =
        ((demoSocket.bytesToWrite + chunks.flatten.length : Nat) : Int) :=
  ⟨by decide, C4_wire_frame demoSocket "ping()".toList [7, 0, 255] rfl rfl⟩

/-! ## C5: round trip of a frame -/

theorem readLine_append (l r : QByteArray) (h : (10 : UInt8) ∉ l) :
    readLine (l ++ 10 :: r) = some (l, r) := by
  induction l with
  | nil => simp [readLine]
  | cons b l ih =>
    have hb : b ≠ 10 := fun e => h (by simp [e])
    have hl : (10 : UInt8) ∉ l := fun e => h (by simp [e])
    simp [readLine, hb, ih hl]

theorem splitField_append (n v : QByteArray) (h : (58 : UInt8) ∉ n) :
    splitField (n ++ 58 :: v) = some (n, v) := by
  induction n with
  | nil => simp [splitField]
  | cons b l ih =>
    have hb : b ≠ 58 := fun e => h (by simp [e])
    have hl : (58 : UInt8) ∉ l := fun e => h (by simp [e])
    simp [splitField, hb, ih hl]

theorem toLatin1_cons_digit (m : Nat) (hm : m < 10) (cs : QString) :
    toLatin1 (Nat.digitChar m :: cs) = UInt8.ofNat (48 + m) :: toLatin1 cs := by
  interval_cases m <;> rfl

theorem digit_byte_toNat (m : Nat) (hm : m < 10) : (UInt8.ofNat (48 + m)).toNat = 48 + m := by
  interval_cases m <;> rfl

theorem parseDecimal_toDigitsCore (fuel : Nat) : ∀ n : Nat, n < fuel →
    ∃ k, ∀ (ds : List Char) (acc : Nat),
      parseDecimal acc (toLatin1 (Nat.toDigitsCore 10 fuel n ds)) =
        parseDecimal (acc * 10 ^ k + n) (toLatin1 ds) := by
  induction fuel with
  | zero => intro n h; omega
  | succ fuel ih =>
    intro n hn
    have hm : n % 10 < 10 := Nat.mod_lt _ (by decide)
    by_cases h0 : n / 10 = 0
    · refine ⟨1, fun ds acc => ?_⟩
      have hlt : n < 10 := by omega
      simp only [Nat.toDigitsCore, h0, if_true]
      rw [toLatin1_cons_digit _ hm, parseDecimal, digit_byte_toNat _ hm]
      rw [if_pos (by omega)]
      congr 1
      omega
    · obtain ⟨k, hk⟩ := ih (n / 10) (by omega)
      refine ⟨k + 1, fun ds acc => ?_⟩
      simp only [Nat.toDigitsCore, h0, if_false]
      rw [hk, toLatin1_cons_digit _ hm, parseDecimal, digit_byte_toNat _ hm]
      rw [if_pos (by omega)]
      congr 1
      rw [pow_succ]
      have := Nat.div_add_mod n 10
      have e : 48 + n % 10 - 48 = n % 10 := by omega
      rw [e]
      nlinarith [this]

theorem parseDecimal_number (n : Nat) : parseDecimal 0 (toLatin1 (number n)) = some n := by
  obtain ⟨k, hk⟩ := parseDecimal_toDigitsCore (n + 1) n (by omega)
  have := hk [] 0
  simpa [number, Nat.toDigits, toLatin1, parseDecimal] using this


theorem parseDecimal_digits (bs : QByteArray) : ∀ (acc n : Nat), parseDecimal acc bs = some n →
    ∀ b ∈ bs, 48 ≤ b.toNat ∧ b.toNat ≤ 57 := by
  induction bs with
  | nil => intro acc n _ b hb; simp at hb
  | cons x xs ih =>
    intro acc n h b hb
    simp only [parseDecimal] at h
    split at h
    · rename_i hx
      rcases List.mem_cons.mp hb with e | e
      · rw [e]; exact hx
      · exact ih _ _ h b e
    · simp at h

theorem number_no_linefeed (n : Nat) : (10 : UInt8) ∉ toLatin1 (number n) := by
  intro h
  have := parseDecimal_digits _ _ _ (parseDecimal_number n) 10 h
  exact absurd this (by decide)

theorem number_ne_nil (n : Nat) : toLatin1 (number n) ≠ [] := by
  intro h
  have hp := parseDecimal_number n
  rw [h] at hp
  simp only [parseDecimal, Option.some.injEq] at hp
  subst hp
  exact absurd h (by decide)

theorem parseLength_number (n : Nat) : parseLength (toLatin1 (number n)) = some n := by
  simp [parseLength, number_ne_nil, parseDecimal_number]

theorem toLatin1_of_latin1 (s : QString) (h : ∀ c ∈ s, c.toNat ≤ 255) :
    toLatin1 s = s.map fun c => UInt8.ofNat c.toNat := by
  induction s with
  | nil => rfl
  | cons c s ih =>
    have hc : c.toNat ≤ 255 := h c (by simp)
    have hs : ∀ d ∈ s, d.toNat ≤ 255 := fun d hd => h d (by simp [hd])
    have := ih hs
    simp only [toLatin1] at this ⊢
    simp [List.flatMap_cons, hc, this]

theorem ofNat_toNat_latin1 (c : Char) (h : c.toNat ≤ 255) :
    Char.ofNat (UInt8.ofNat c.toNat).toNat = c := by
  have : (UInt8.ofNat c.toNat).toNat = c.toNat := by
    simp [UInt8.ofNat, UInt8.toNat, Fin.ofNat]
    omega
  rw [this, Char.ofNat_toNat]

theorem fromLatin1_toLatin1 (s : QString) (h : ∀ c ∈ s, c.toNat ≤ 255) :
    fromLatin1 (toLatin1 s) = s := by
  rw [toLatin1_of_latin1 s h, fromLatin1, List.map_map]
  conv_rhs => rw [← List.map_id s]
  apply List.map_congr_left
  intro c hc
  exact ofNat_toNat_latin1 c (h c hc)

theorem toLatin1_no_linefeed (s : QString) (h : ∀ c ∈ s, c.toNat ≤ 255)
    (hn : ∀ c ∈ s, c ≠ '\n') : (10 : UInt8) ∉ toLatin1 s := by
  rw [toLatin1_of_latin1 s h]
  intro hm
  obtain ⟨c, hc, e⟩ := List.mem_map.mp hm
  apply hn c hc
  have h2 := ofNat_toNat_latin1 c (h c hc)
  rw [e] at h2
  rw [← h2]
  rfl


theorem sendPackage_written (sock : QTcpSocket) (method : QString) (data : QByteArray)
    (hvalid : sock.valid = true) (hstate : sock.state = SocketState.ConnectedState) :
    (sendPackage sock method data).2.written = sock.written ++
      [toLatin1 (arg "Method:%1\n".toList method),
       toLatin1 (arg "Content-Length:%1\n".toList (number data.length)),
       toLatin1 "\n".toList, data] := by
  simp [sendPackage, hvalid, hstate, QTcpSocket.write]

theorem frameOf_connected (sock : QTcpSocket) (method : QString) (data : QByteArray)
    (hvalid : sock.valid = true) (hstate : sock.state = SocketState.ConnectedState) :
    frameOf sock method data =
      (toLatin1 "Method".toList ++ 58 :: toLatin1 method) ++ 10 ::
      ((toLatin1 "Content-Length".toList ++ 58 :: toLatin1 (number data.length)) ++ 10 ::
       (10 :: data)) := by
  unfold frameOf
  rw [sendPackage_written sock method data hvalid hstate, List.drop_left,
    arg_method, arg_contentLength]
  simp only [toLatin1_append]
  simp [List.flatten]
  rfl

theorem readHeader_frame (k : Nat) (m l body : QByteArray) (hm : (10 : UInt8) ∉ m)
    (hl : (10 : UInt8) ∉ l) :
    readHeader (k + 3)
      ((toLatin1 "Method".toList ++ 58 :: m) ++ 10 ::
       ((toLatin1 "Content-Length".toList ++ 58 :: l) ++ 10 :: (10 :: body))) [] =
      some ([(toLatin1 "Method".toList, m), (toLatin1 "Content-Length".toList, l)], body) := by
  have h1 : (10 : UInt8) ∉ toLatin1 "Method".toList ++ 58 :: m := by
    intro h
    rcases List.mem_append.mp h with h | h
    · exact absurd h (by decide)
    · rcases List.mem_cons.mp h with h | h
      · exact absurd h (by decide)
      · exact hm h
  have h2 : (10 : UInt8) ∉ toLatin1 "Content-Length".toList ++ 58 :: l := by
    intro h
    rcases List.mem_append.mp h with h | h
    · exact absurd h (by decide)
    · rcases List.mem_cons.mp h with h | h
      · exact absurd h (by decide)
      · exact hl h
  have n1 : toLatin1 "Method".toList ++ 58 :: m ≠ [] := by simp
  have n2 : toLatin1 "Content-Length".toList ++ 58 :: l ≠ [] := by simp
  have f1 := splitField_append (toLatin1 "Method".toList) m (by decide)
  have f2 := splitField_append (toLatin1 "Content-Length".toList) l (by decide)
  rw [readHeader, readLine_append _ _ h1]
  simp only [n1, if_false, f1]
  rw [readHeader, readLine_append _ _ h2]
  simp only [n2, if_false, f2]
  rw [readHeader]
  simp [readLine]

theorem decodeFrame_frame (m l body : QByteArray) (n : Nat) (hm : (10 : UInt8) ∉ m)
    (hl : (10 : UInt8) ∉ l) (hp : parseLength l = some n) (hn : n = body.length) :
    decodeFrame
      ((toLatin1 "Method".toList ++ 58 :: m) ++ 10 ::
       ((toLatin1 "Content-Length".toList ++ 58 :: l) ++ 10 :: (10 :: body))) =
      some (fromLatin1 m, body) := by
  unfold decodeFrame
  obtain ⟨k, hk⟩ : ∃ k, ((toLatin1 "Method".toList ++ 58 :: m) ++ 10 ::
       ((toLatin1 "Content-Length".toList ++ 58 :: l) ++ 10 :: (10 :: body))).length + 1
       = k + 3 := by
    refine ⟨(toLatin1 "Method".toList ++ 58 :: m).length +
      (toLatin1 "Content-Length".toList ++ 58 :: l).length + body.length + 1, ?_⟩
    simp only [List.length_append, List.length_cons]
    omega
  rw [hk, readHeader_frame k m l body hm hl]
  have e1 : List.lookup (toLatin1 "Method".toList)
      [(toLatin1 "Method".toList, m), (toLatin1 "Content-Length".toList, l)] = some m := by
    simp [List.lookup]
  have e2 : List.lookup (toLatin1 "Content-Length".toList)
      [(toLatin1 "Method".toList, m), (toLatin1 "Content-Length".toList, l)] = some l := by
    have : (toLatin1 "Content-Length".toList == toLatin1 "Method".toList) = false := by decide
    simp only [List.lookup, this, beq_self_eq_true]
  simp only [e1, e2, hp]
  subst hn
  simp

/-- C5, amended. For every payload, empty or not, and every method string made of Latin-1
characters only that contains no line feed and no field separator `:`, decoding the bytes
`sendPackage` hands to a valid connected socket yields the method string and the payload
exactly. -/
theorem C5_round_trip_latin1 (sock : QTcpSocket) (method : QString) (data : QByteArray)
    (hvalid : sock.valid = true) (hstate : sock.state = SocketState.ConnectedState)
    (hdelim : ∀ c ∈ method, c ≠ '\n' ∧ c ≠ ':')
    (hlatin : ∀ c ∈ method, c.toNat ≤ 0xFF) :
    decodeFrame (frameOf sock method data) = some (method, data) := by
  rw [frameOf_connected sock method data hvalid hstate,
    decodeFrame_frame (toLatin1 method) (toLatin1 (number data.length)) data data.length
      (toLatin1_no_linefeed method hlatin (fun c hc => (hdelim c hc).1))
      (number_no_linefeed _) (parseLength_number _) rfl,
    fromLatin1_toLatin1 method hlatin]

/-- C5, amended, at `echo(QString)` with a payload holding a line feed and a colon, and at
the empty payload. -/
theorem C5_round_trip_latin1_witness :
    decodeFrame (frameOf demoSocket "echo(QString)".toList [0, 10, 58, 255]) =
      some ("echo(QString)".toList, [0, 10, 58, 255]) ∧
    decodeFrame (frameOf demoSocket "ping()".toList []) = some ("ping()".toList, []) :=
  ⟨C5_round_trip_latin1 demoSocket "echo(QString)".toList [0, 10, 58, 255] rfl rfl
     (by decide) (by decide),
   C5_round_trip_latin1 demoSocket "ping()".toList [] rfl rfl (by decide) (by decide)⟩

/-- C5 as stated fails: the method string `€` holds no delimiter, yet `toLatin1` writes it
as `?`, the same bytes as for the method string `?`, and decoding returns `?`. -/
theorem C5_round_trip_fails_outside_latin1 :
    (¬ ∀ (method : QString) (data : QByteArray), (∀ c ∈ method, c ≠ '\n' ∧ c ≠ ':') →
      decodeFrame (frameOf demoSocket method data) = some (method, data)) ∧
    frameOf demoSocket ['€'] [] = frameOf demoSocket ['?'] [] ∧
    decodeFrame (frameOf demoSocket ['€'] []) = some (['?'], []) := by
  refine ⟨fun h => ?_, by decide, by decide⟩
  exact absurd (h ['€'] [] (by decide)) (by decide)

/-! ## C6: one command in flight -/

/-- C6. While a command is in flight the pump returns the client unchanged (socket, queue,
attempt counters, in-flight command, accumulator and logs alike). Moreover any single
event that hands a command to the transport from such a state (the write log or the
attempt log changes) has first emitted `sentSuccessfully` for the in-flight command. -/
theorem C6_pump_is_idle_while_in_flight (c : IpcClient) (cur : Package)
    (h : c.m_current = some cur) :
    c.processQueue = c ∧
    ∀ (e : Event) (c1 : IpcClient), c.step e = some c1 →
      (c1.m_socket.written ≠ c.m_socket.written ∨ c1.attempts ≠ c.attempts) →
      ∃ later, c1.emitted = c.emitted ++ Signal.sentSuccessfully cur.m_uuid :: later := by
  refine ⟨by simp [IpcClient.processQueue, h], ?_⟩
  intro e c1 hstep hw
  cases e with
  | send m d u =>
    simp only [IpcClient.step, IpcClient.send, Option.some.injEq] at hstep
    subst hstep
    simp at hw
  | processQueue =>
    simp only [IpcClient.step, IpcClient.processQueue, h, Option.some.injEq] at hstep
    subst hstep
    simp at hw
  | onBytesWritten w =>
    simp only [IpcClient.step, IpcClient.onBytesWritten, h] at hstep
    split at hstep
    · simp only [Option.some.injEq] at hstep
      subst hstep
      simp at hw
    · simp only [Option.some.injEq] at hstep
      subst hstep
      obtain ⟨more, hm⟩ := emitted_processQueue
        { c with m_written := c.m_written + w - cur.m_bytes,
                 emitted := c.emitted ++ [Signal.sentSuccessfully cur.m_uuid],
                 m_lastSuccess := some cur.m_uuid,
                 m_current := none }
      exact ⟨more, by rw [hm]; simp⟩
  | onError err =>
    simp only [IpcClient.step, IpcClient.onError, h, Option.some.injEq] at hstep
    subst hstep
    split at hw <;> simp at hw
  | socketChanged v st b =>
    simp only [IpcClient.step, Option.some.injEq] at hstep
    subst hstep
    simp at hw

/-- C6 on the client of `staleEvents`, where command 8 is in flight, for a confirmation
that completes it. -/
theorem C6_pump_is_idle_while_in_flight_witness :
    ∃ c cur, (IpcClient.create demoSocket).run staleEvents = some c ∧
      c.m_current = some cur ∧
      (c.processQueue = c ∧
       ∀ (e : Event) (c1 : IpcClient), c.step e = some c1 →
        (c1.m_socket.written ≠ c.m_socket.written ∨ c1.attempts ≠ c.attempts) →
        ∃ later, c1.emitted = c.emitted ++ Signal.sentSuccessfully cur.m_uuid :: later) :=
  ⟨_, _, rfl, rfl, C6_pump_is_idle_while_in_flight _ _ rfl⟩

/-! ## C7: `send` -/

/-- C7. `send` returns the id of the command it creates; the queue afterwards is the old
queue followed by that command, holding the given method and payload with `m_tries = 0`
and `m_bytes = 0`; the in-flight slot, the accumulator, the last-success id, the socket
(nothing is written), the signals and the attempt log are unchanged, and exactly one pump
is scheduled with delay 0. -/
theorem C7_send_appends (c : IpcClient) (method : QString) (data : QByteArray)
    (uuid : QUuid) :
    (c.send method data uuid).1 = uuid ∧
    (c.send method data uuid).2.m_queue =
      c.m_queue ++ [{ m_uuid := (c.send method data uuid).1, m_method := method,
                      m_data := data, m_tries := 0, m_bytes := 0 }] ∧
    (c.send method data uuid).2.m_current = c.m_current ∧
    (c.send method data uuid).2.m_written = c.m_written ∧
    (c.send method data uuid).2.m_lastSuccess = c.m_lastSuccess ∧
    (c.send method data uuid).2.m_socket = c.m_socket ∧
    (c.send method data uuid).2.emitted = c.emitted ∧
    (c.send method data uuid).2.attempts = c.attempts ∧
    (c.send method data uuid).2.timers = c.timers ++ [0] := by
  simp [IpcClient.send]

/-! ## C8, C9, C10: the election -/

theorem Race.inv_step (unix : Bool) (r : Race) (who : Bool) (h : r.Inv) :
    (r.step unix who).Inv := by
  obtain ⟨seg, p1, p2⟩ := r
  obtain ⟨h1, h2, h3, h4, h5⟩ := h
  simp only at h1 h2 h3 h4 h5
  cases who <;> cases unix <;> rcases p1 with _ | ⟨_ | _⟩ | _ | _ | _ | ⟨_ | _⟩ <;>
    rcases p2 with _ | ⟨_ | _⟩ | _ | _ | _ | ⟨_ | _⟩ <;>
    simp [Pc.holds] at h1 h2 h3 h4 h5 <;>
    simp [Race.step, Race.Inv, procStep, segmentApi, Pc.holds, h1] <;>
    simp_all [Pc.holds]

theorem Race.inv_init : Race.init.Inv := by
  simp [Race.Inv, Race.init, Pc.holds]

theorem Race.inv_run (unix : Bool) (schedule : List Bool) :
    ∀ r : Race, r.Inv → (r.run unix schedule).Inv := by
  induction schedule with
  | nil => intro r h; exact h
  | cons who rest ih =>
    intro r h
    exact ih _ (Race.inv_step unix r who h)

theorem Pc.remaining_zero (pc : Pc) (h : pc.remaining = 0) : ∃ retv, pc = Pc.done retv := by
  cases pc <;> simp [Pc.remaining] at h
  exact ⟨_, rfl⟩

theorem procStep_remaining {W : Type} (api : SharedMemoryApi W) (unix : Bool) (pc : Pc)
    (w : W) : (procStep api unix pc w).1.remaining ≤ pc.remaining - 1 := by
  rcases pc with _ | ⟨_ | _⟩ | _ | _ | _ | _
  · cases unix <;> simp [procStep, Pc.remaining]
  · simp [procStep, Pc.remaining]
  · simp [procStep, Pc.remaining]
  · by_cases h : (api.attach w).1 = true <;> simp [procStep, h, Pc.remaining]
  · simp [procStep, Pc.remaining]
  · simp [procStep, Pc.remaining]
  · simp [procStep, Pc.remaining]

theorem Race.remaining_run (unix : Bool) (schedule : List Bool) : ∀ r : Race,
    (r.run unix schedule).first.remaining ≤ r.first.remaining - schedule.count false ∧
    (r.run unix schedule).second.remaining ≤ r.second.remaining - schedule.count true := by
  induction schedule with
  | nil => intro r; simp [Race.run]
  | cons who rest ih =>
    intro r
    have h := ih (r.step unix who)
    have h1 := procStep_remaining segmentApi unix r.first r.segment
    have h2 := procStep_remaining segmentApi unix r.second r.segment
    cases who
    · simp only [Race.run, List.foldl_cons] at h ⊢
      simp only [Race.step, Bool.false_eq_true, if_false] at h ⊢
      have e1 : List.count false (false :: rest) = List.count false rest + 1 := by simp
      have e2 : List.count true (false :: rest) = List.count true rest := by simp
      rw [e1, e2]
      omega
    · simp only [Race.run, List.foldl_cons] at h ⊢
      simp only [Race.step, if_true] at h ⊢
      have e1 : List.count false (true :: rest) = List.count false rest := by simp
      have e2 : List.count true (true :: rest) = List.count true rest + 1 := by simp
      rw [e1, e2]
      omega

/-- Run alone, the steps of a process are the first call of `isMaster`. -/
theorem procStep_solo {W : Type} (api : SharedMemoryApi W) (unix : Bool) (retv : Bool)
    (w : W) :
    let s1 := procStep api unix Pc.start w
    let s2 := procStep api unix s1.1 s1.2
    let s3 := procStep api unix s2.1 s2.2
    let s4 := procStep api unix s3.1 s3.2
    let res := isMaster api unix false { lock := false, retv := retv } w
    s4 = (Pc.done res.1, res.2.2.1) := by
  cases unix
  · simp only [procStep, isMaster, staleProbe, Bool.false_eq_true, if_false]
    cases h1 : (api.attach w).1 <;> simp [procStep, h1]
    cases h2 : (api.create (api.attach w).2).1 <;> simp [h2]
  · simp only [procStep, isMaster, staleProbe, Bool.false_eq_true, if_false, if_true]
    cases h0 : (api.attach w).1 <;> simp [procStep, h0]
    · cases h1 : (api.attach (api.attach w).2).1 <;> simp [procStep, h1]
      cases h2 : (api.create (api.attach (api.attach w).2).2).1 <;> simp [h2]
    · cases h1 : (api.attach (api.detach (api.attach w).2)).1 <;> simp [procStep, h1]
      cases h2 : (api.create (api.attach (api.detach (api.attach w).2)).2).1 <;> simp [h2]


/-- C8. With `noRemote` set, `isMaster` returns `true` (Master), performs no lock operation
and leaves statics and world alone. With `noRemote` unset, on the first call (the static
`lock` is null): if `lock->attach` succeeds the result is `false` (Follower) and no create
is attempted; if it fails and `lock->create` succeeds the result is `true`; and the result
is `true` exactly when the last lock operation of the call is a successful create, that
is when this process created the segment and still holds it. -/
theorem C8_role_decision {W : Type} (api : SharedMemoryApi W) (unix : Bool) (retv : Bool)
    (st : Statics) (w : W) :
    isMaster api unix true st w = (true, st, w, []) ∧
    ((api.attach (staleProbe api unix w).1).1 = true →
      (isMaster api unix false { lock := false, retv := retv } w).1 = false ∧
      ∀ ok, LockOp.create ok ∉
        (isMaster api unix false { lock := false, retv := retv } w).2.2.2) ∧
    ((api.attach (staleProbe api unix w).1).1 = false →
      (api.create (api.attach (staleProbe api unix w).1).2).1 = true →
      (isMaster api unix false { lock := false, retv := retv } w).1 = true) ∧
    ((isMaster api unix false { lock := false, retv := retv } w).1 = true ↔
      (isMaster api unix false { lock := false, retv := retv } w).2.2.2.getLast? =
        some (LockOp.create true)) := by
  refine ⟨by simp [isMaster], ?_, ?_, ?_⟩
  · intro h
    simp only [isMaster, Bool.false_eq_true, if_false, h, if_true]
    refine ⟨trivial, fun ok hm => ?_⟩
    simp only [staleProbe] at hm
    cases unix <;> simp at hm
    split at hm <;> simp at hm
  · intro h1 h2
    simp [isMaster, h1, h2]
  · simp only [isMaster, Bool.false_eq_true, if_false]
    cases h1 : (api.attach (staleProbe api unix w).1).1 <;>
      cases h2 : (api.create (api.attach (staleProbe api unix w).1).2).1 <;>
      simp [List.getLast?_append]

/-- C8 on the segment model: alone on a machine without segment the process is Master and
its last operation is the successful create; with `noRemote` nothing is touched. -/
theorem C8_role_decision_witness :
    (isMaster segmentApi true false { lock := false, retv := false } 0).1 = true ∧
    (isMaster segmentApi true false { lock := false, retv := false } 1).1 = false ∧
    (isMaster segmentApi true true { lock := false, retv := false } 0 =
        (true, { lock := false, retv := false }, 0, []) ∧
     ((segmentApi.attach (staleProbe segmentApi true 0).1).1 = true →
      (isMaster segmentApi true false { lock := false, retv := false } 0).1 = false ∧
      ∀ ok, LockOp.create ok ∉
        (isMaster segmentApi true false { lock := false, retv := false } 0).2.2.2) ∧
     ((segmentApi.attach (staleProbe segmentApi true 0).1).1 = false →
      (segmentApi.create (segmentApi.attach (staleProbe segmentApi true 0).1).2).1 = true →
      (isMaster segmentApi true false { lock := false, retv := false } 0).1 = true) ∧
     ((isMaster segmentApi true false { lock := false, retv := false } 0).1 = true ↔
      (isMaster segmentApi true false { lock := false, retv := false } 0).2.2.2.getLast? =
        some (LockOp.create true))) :=
  ⟨by decide, by decide,
   C8_role_decision segmentApi true false { lock := false, retv := false } 0⟩

/-- C9, amended. With `noRemote` unset, on the first call, when `lock->attach` fails and
`lock->create` fails, for whatever reason, `isMaster` returns `false` (Follower) and
caches that answer. -/
theorem C9_create_failure_gives_follower {W : Type} (api : SharedMemoryApi W) (unix : Bool)
    (retv : Bool) (w : W)
    (hattach : (api.attach (staleProbe api unix w).1).1 = false)
    (hcreate : (api.create (api.attach (staleProbe api unix w).1).2).1 = false) :
    (isMaster api unix false { lock := false, retv := retv } w).1 = false ∧
    (isMaster api unix false { lock := false, retv := retv } w).2.1 =
      { lock := true, retv := false } := by
  simp [isMaster, hattach, hcreate]

/-- C9, amended, on a lock that nobody holds and that cannot be created. -/
theorem C9_create_failure_gives_follower_witness :
    (isMaster deniedApi true false { lock := false, retv := false } ()).1 = false ∧
    (isMaster deniedApi true false { lock := false, retv := false } ()).2.1 =
      { lock := true, retv := false } :=
  C9_create_failure_gives_follower deniedApi true false () rfl rfl

/-- C9 as stated fails: nobody holds the lock (every attach fails), creating it is denied,
and `isMaster` does not return Master. -/
theorem C9_create_failure_is_not_master :
    (deniedApi.attach ()).1 = false ∧ (deniedApi.create ()).1 = false ∧
    (isMaster deniedApi true false { lock := false, retv := false } ()).1 ≠ true ∧
    (isMaster deniedApi false false { lock := false, retv := false } ()).1 ≠ true := by
  decide

/-- C10. Two processes run their first `isMaster` (option `noRemote` unset) against one
segment that starts absent, each lock operation being one step. Under every interleaving:
at no time are both Master; once both have returned, exactly one has returned `true`; and
both have returned as soon as the schedule has given each of them four steps. -/
theorem C10_exactly_one_master (unix : Bool) (schedule : List Bool) :
    ¬ ((Race.init.run unix schedule).first = Pc.done true ∧
       (Race.init.run unix schedule).second = Pc.done true) ∧
    (∀ a b, (Race.init.run unix schedule).first = Pc.done a →
      (Race.init.run unix schedule).second = Pc.done b →
      (a = true ∧ b = false) ∨ (a = false ∧ b = true)) ∧
    (4 ≤ schedule.count false → 4 ≤ schedule.count true →
      ((Race.init.run unix schedule).first = Pc.done true ∧
       (Race.init.run unix schedule).second = Pc.done false) ∨
      ((Race.init.run unix schedule).first = Pc.done false ∧
       (Race.init.run unix schedule).second = Pc.done true)) := by
  obtain ⟨_, _, h3, h4, h5⟩ := Race.inv_run unix schedule Race.init Race.inv_init
  have key : ∀ a b, (Race.init.run unix schedule).first = Pc.done a →
      (Race.init.run unix schedule).second = Pc.done b →
      (a = true ∧ b = false) ∨ (a = false ∧ b = true) := by
    intro a b ha hb
    cases a
    · have := h3 ha
      rw [hb] at this
      right
      exact ⟨rfl, by simpa using this⟩
    · cases b
      · left; exact ⟨rfl, rfl⟩
      · exact absurd ⟨ha, hb⟩ h5
  refine ⟨h5, key, fun c1 c2 => ?_⟩
  obtain ⟨r1, r2⟩ := Race.remaining_run unix schedule Race.init
  have e1 : Race.init.first.remaining = 4 := rfl
  have e2 : Race.init.second.remaining = 4 := rfl
  rw [e1] at r1
  rw [e2] at r2
  obtain ⟨a, ha⟩ := Pc.remaining_zero _ (by omega : (Race.init.run unix schedule).first.remaining = 0)
  obtain ⟨b, hb⟩ := Pc.remaining_zero _ (by omega : (Race.init.run unix schedule).second.remaining = 0)
  rcases key a b ha hb with ⟨e1, e2⟩ | ⟨e1, e2⟩
  · left; rw [ha, hb, e1, e2]; exact ⟨rfl, rfl⟩
  · right; rw [ha, hb, e1, e2]; exact ⟨rfl, rfl⟩

/-- C10 on the interleaving in which both processes see every attach fail before either
creates: the second to create loses. -/
theorem C10_exactly_one_master_witness :
    Race.init.run true [false, true, false, true, false, true, true, false] =
      { segment := 1, first := Pc.done false, second := Pc.done true } ∧
    (¬ ((Race.init.run true [false, true, false, true, false, true, true, false]).first =
          Pc.done true ∧
        (Race.init.run true [false, true, false, true, false, true, true, false]).second =
          Pc.done true) ∧
     (∀ a b,
      (Race.init.run true [false, true, false, true, false, true, true, false]).first =
        Pc.done a →
      (Race.init.run true [false, true, false, true, false, true, true, false]).second =
        Pc.done b →
      (a = true ∧ b = false) ∨ (a = false ∧ b = true)) ∧
     (4 ≤ [false, true, false, true, false, true, true, false].count false →
      4 ≤ [false, true, false, true, false, true, true, false].count true →
      ((Race.init.run true [false, true, false, true, false, true, true, false]).first =
         Pc.done true ∧
       (Race.init.run true [false, true, false, true, false, true, true, false]).second =
         Pc.done false) ∨
      ((Race.init.run true [false, true, false, true, false, true, true, false]).first =
         Pc.done false ∧
       (Race.init.run true [false, true, false, true, false, true, true, false]).second =
         Pc.done true))) :=
  ⟨by decide, C10_exactly_one_master true [false, true, false, true, false, true, true, false]⟩

/-! ## C11: lock key and channel name -/

theorem readEscape_getLast (s : List Char) (c : Char) (n : Nat) (t r : List Char)
    (h : readEscape s = some (n, t, r)) (hl : s.getLast? = some c)
    (hc : digitValue c = none) : r.getLast? = some c ∧ r.length ≤ s.length := by
  have body : ∀ (s : List Char) (n : Nat) (t r : List Char),
      (match s with
       | [] => none
       | d :: s1 =>
         match digitValue d with
         | none => none
         | some v =>
           match s1 with
           | [] => some (v, [d], [])
           | e :: s2 =>
             match digitValue e with
             | none => some (v, [d], e :: s2)
             | some w => some (10 * v + w, [d, e], s2)) = some (n, t, r) →
      s.getLast? = some c → r.getLast? = some c ∧ r.length ≤ s.length := by
    intro s n t r h hl
    match s, h, hl with
    | d :: s1, h, hl =>
      simp only at h
      cases hd : digitValue d with
      | none => simp [hd] at h
      | some v =>
        simp only [hd] at h
        match s1, h, hl with
        | [], h, hl =>
          simp only [List.getLast?_singleton, Option.some.injEq] at hl
          subst hl
          rw [hd] at hc
          exact absurd hc (by simp)
        | e :: s2, h, hl =>
          simp only at h
          cases he : digitValue e with
          | none =>
            simp only [he, Option.some.injEq, Prod.mk.injEq] at h
            obtain ⟨_, _, hr⟩ := h
            subst hr
            rw [List.getLast?_cons_cons] at hl
            exact ⟨hl, by simp⟩
          | some w =>
            simp only [he, Option.some.injEq, Prod.mk.injEq] at h
            obtain ⟨_, _, hr⟩ := h
            subst hr
            rw [List.getLast?_cons_cons] at hl
            match s2, hl with
            | [], hl =>
              simp only [List.getLast?_singleton, Option.some.injEq] at hl
              subst hl
              rw [he] at hc
              exact absurd hc (by simp)
            | f :: s3, hl =>
              rw [List.getLast?_cons_cons] at hl
              exact ⟨hl, by simp⟩
  match s, h, hl with
  | x :: rest, h, hl =>
    simp only [readEscape] at h
    split at h
    · split at h
      · simp at h
      · rename_i n1 t1 r1 hb
        simp only [Option.some.injEq, Prod.mk.injEq] at h
        obtain ⟨_, _, hr⟩ := h
        subst hr
        match rest, hb, hl with
        | [], hb, _ => simp at hb
        | y :: rest1, hb, hl =>
          rw [List.getLast?_cons_cons] at hl
          obtain ⟨g1, g2⟩ := body _ _ _ _ hb hl
          exact ⟨g1, by simp at g2 ⊢; omega⟩
    · exact body _ _ _ _ h hl

theorem argTokens_getLast (fuel : Nat) : ∀ (s : List Char) (c : Char), s.length < fuel →
    s.getLast? = some c → digitValue c = none →
    ∃ ts, argTokens fuel s = ts ++ [ArgToken.lit c] := by
  induction fuel with
  | zero => intro s c h; omega
  | succ fuel ih =>
    intro s c hlen hl hc
    match s, hlen, hl with
    | [x], _, hl =>
      simp only [List.getLast?_singleton, Option.some.injEq] at hl
      subst hl
      refine ⟨[], ?_⟩
      cases fuel <;> simp [argTokens, readEscape]
    | x :: y :: rest, hlen, hl =>
      rw [List.getLast?_cons_cons] at hl
      simp only [List.length_cons] at hlen
      simp only [argTokens]
      have hrest : ∃ ts, argTokens fuel (y :: rest) = ts ++ [ArgToken.lit c] :=
        ih (y :: rest) c (by simp; omega) hl hc
      split
      · cases hr : readEscape (y :: rest) with
        | none =>
          obtain ⟨ts, hts⟩ := hrest
          exact ⟨ArgToken.lit x :: ts, by simp [hts]⟩
        | some v =>
          obtain ⟨n, t, r⟩ := v
          obtain ⟨g1, g2⟩ := readEscape_getLast _ c n t r hr hl hc
          obtain ⟨ts, hts⟩ := ih r c (by simp at g2; omega) g1 hc
          exact ⟨ArgToken.marker n ('%' :: t) :: ts, by simp [hts]⟩
      · obtain ⟨ts, hts⟩ := hrest
        exact ⟨ArgToken.lit x :: ts, by simp [hts]⟩

/-- A format string that ends in a character other than a digit keeps that last character
under `arg`, whatever is substituted. -/
theorem arg_getLast (fmt a : QString) (c : Char) (hl : fmt.getLast? = some c)
    (hc : digitValue c = none) : (arg fmt a).getLast? = some c := by
  unfold arg
  obtain ⟨ts, hts⟩ := argTokens_getLast (fmt.length + 1) fmt c (by omega) hl hc
  simp only []
  cases minEscape (argTokens (fmt.length + 1) fmt) with
  | none => exact hl
  | some m =>
    simp only [hts, List.flatMap_append, List.flatMap_cons, List.flatMap_nil,
      List.append_nil]
    simp

theorem lockKey_getLast (d n a u : QString) : (lockKey d n a u).getLast? = some 'k' := by
  unfold lockKey
  exact arg_getLast _ _ _ (arg_getLast _ _ _ (arg_getLast _ _ _ (by decide) (by decide))
    (by decide)) (by decide)

theorem serverName_getLast (d n a u : QString) :
    (serverName d n a u).getLast? = some 'p' := by
  unfold serverName
  exact arg_getLast _ _ _ (arg_getLast _ _ _ (arg_getLast _ _ _ (by decide) (by decide))
    (by decide)) (by decide)

/-- C11. For every identity the lock key of `isMaster` and the channel name of
`serverName` are different strings, and the lock key of one identity differs from the
channel name of any other identity as well: the first always ends in `k`, the second in
`p`, whatever the three substitutions put in front. -/
theorem C11_lock_key_differs_from_channel_name (d n a u d1 n1 a1 u1 : QString) :
    lockKey d n a u ≠ serverName d n a u ∧ lockKey d n a u ≠ serverName d1 n1 a1 u1 := by
  have key : ∀ (d1 n1 a1 u1 : QString), lockKey d n a u ≠ serverName d1 n1 a1 u1 := by
    intro d1 n1 a1 u1 h
    have h1 := lockKey_getLast d n a u
    rw [h, serverName_getLast] at h1
    exact absurd h1 (by decide)
  exact ⟨key _ _ _ _, key _ _ _ _⟩

/-! ## C13: closing the connection while a command is in flight -/

/-- C13, amended. With a command in flight, `disconnectFromServer` only passes the request
to the socket: it emits nothing, leaves the in-flight slot, the queue, the accumulator,
the timers and the written bytes as they are. The command is reported only if the socket
afterwards raises an error `e`: `onError e` then emits `sendingError` with the command's
id and that `e`, and clears the slot. -/
theorem C13_disconnect_leaves_command_in_flight (c : IpcClient) (cur : Package)
    (h : c.m_current = some cur) :
    c.disconnectFromServer.emitted = c.emitted ∧
    c.disconnectFromServer.m_current = some cur ∧
    c.disconnectFromServer.m_queue = c.m_queue ∧
    c.disconnectFromServer.m_written = c.m_written ∧
    c.disconnectFromServer.timers = c.timers ∧
    c.disconnectFromServer.m_socket.written = c.m_socket.written ∧
    ∀ e : SocketError,
      (∃ later, (c.disconnectFromServer.onError e).emitted =
        c.emitted ++ Signal.sendingError cur.m_uuid e :: later) ∧
      (c.disconnectFromServer.onError e).m_current = none := by
  refine ⟨rfl, h, rfl, rfl, rfl, rfl, fun e => ?_⟩
  have h1 : c.disconnectFromServer.m_current = some cur := h
  unfold IpcClient.onError
  simp only [h1]
  split
  · exact ⟨⟨[Signal.connectionError e], by simp [IpcClient.disconnectFromServer]⟩, rfl⟩
  · exact ⟨⟨[], by simp [IpcClient.disconnectFromServer]⟩, rfl⟩

/-- C13, amended, on the client of `inFlightEvents`. -/
theorem C13_disconnect_leaves_command_in_flight_witness :
    ∃ c cur, (IpcClient.create demoSocket).run inFlightEvents = some c ∧
      c.m_current = some cur ∧ cur.m_uuid = 7 ∧
      (c.disconnectFromServer.emitted = c.emitted ∧
       c.disconnectFromServer.m_current = some cur ∧
       c.disconnectFromServer.m_queue = c.m_queue ∧
       c.disconnectFromServer.m_written = c.m_written ∧
       c.disconnectFromServer.timers = c.timers ∧
       c.disconnectFromServer.m_socket.written = c.m_socket.written ∧
       ∀ e : SocketError,
        (∃ later, (c.disconnectFromServer.onError e).emitted =
          c.emitted ++ Signal.sendingError cur.m_uuid e :: later) ∧
        (c.disconnectFromServer.onError e).m_current = none) :=
  ⟨_, _, rfl, rfl, rfl, C13_disconnect_leaves_command_in_flight _ _ rfl⟩

/-- C13 as stated fails: on the client of `inFlightEvents` command 7 is in flight, and
after `disconnectFromServer` no signal at all has been emitted and command 7 still
occupies the in-flight slot. -/
theorem C13_disconnect_emits_nothing :
    ∃ c cur, (IpcClient.create demoSocket).run inFlightEvents = some c ∧
      c.m_current = some cur ∧ cur.m_uuid = 7 ∧
      c.disconnectFromServer.emitted = [] ∧
      c.disconnectFromServer.m_current = some cur ∧
      c.disconnectFromServer.m_socket.state = SocketState.ClosingState :=
  ⟨_, _, rfl, rfl, rfl, rfl, rfl, rfl⟩

/-! ## C14: one pump on a transport that rejects the write -/

theorem sendPackage_rejected (sock : QTcpSocket) (method : QString) (data : QByteArray)
    (h : sock.valid = false ∨ sock.state ≠ SocketState.ConnectedState) :
    sendPackage sock method data = (-1, sock) := by
  unfold sendPackage
  rcases h with h | h <;> simp [h]

/-- C14. With no command in flight, a head of queue whose attempt counter is below 4 and
a socket that is invalid or not connected, one pump keeps the queue as it is except that
the head's counter grows by one, leaves the in-flight slot empty, leaves the socket alone
(nothing is written), emits no signal, and schedules exactly one pump after 1000 ms. The
accumulator and the last-success id are unchanged; the attempt is logged. -/
theorem C14_rejected_write_is_silent (c : IpcClient) (head : Package) (rest : List Package)
    (hcur : c.m_current = none) (hq : c.m_queue = head :: rest) (ht : head.m_tries < 4)
    (hs : c.m_socket.valid = false ∨ c.m_socket.state ≠ SocketState.ConnectedState) :
    c.processQueue.m_queue = { head with m_tries := head.m_tries + 1 } :: rest ∧
    c.processQueue.m_current = none ∧
    c.processQueue.m_socket = c.m_socket ∧
    c.processQueue.emitted = c.emitted ∧
    c.processQueue.timers = c.timers ++ [1000] ∧
    c.processQueue.m_written = c.m_written ∧
    c.processQueue.m_lastSuccess = c.m_lastSuccess ∧
    c.processQueue.attempts = c.attempts ++ [head.m_uuid] := by
  unfold IpcClient.processQueue
  simp only [hcur, hq]
  rw [if_neg (by simp; omega)]
  simp only [sendPackage_rejected c.m_socket _ _ hs, toInt32_neg_one]
  simp

/-- C14 on a client whose socket is not connected, with one command already tried twice
and a second one behind it. -/
theorem C14_rejected_write_is_silent_witness :
    (IpcClient.processQueue
      { m_socket := { valid := true, state := SocketState.UnconnectedState,
                      bytesToWrite := 0, written := [] },
        m_queue := [⟨7, "a".toList, [], 2, 0⟩, ⟨8, "b".toList, [1], 0, 0⟩],
        m_current := none, m_written := 0, m_lastSuccess := none, emitted := [],
        timers := [0, 1000, 1000], attempts := [7, 7] }).m_queue =
      [⟨7, "a".toList, [], 3, 0⟩, ⟨8, "b".toList, [1], 0, 0⟩] ∧
    (IpcClient.processQueue
      { m_socket := { valid := true, state := SocketState.UnconnectedState,
                      bytesToWrite := 0, written := [] },
        m_queue := [⟨7, "a".toList, [], 2, 0⟩, ⟨8, "b".toList, [1], 0, 0⟩],
        m_current := none, m_written := 0, m_lastSuccess := none, emitted := [],
        timers := [0, 1000, 1000], attempts := [7, 7] }).timers = [0, 1000, 1000, 1000] :=
  have h := C14_rejected_write_is_silent
    { m_socket := { valid := true, state := SocketState.UnconnectedState,
                    bytesToWrite := 0, written := [] },
      m_queue := [⟨7, "a".toList, [], 2, 0⟩, ⟨8, "b".toList, [1], 0, 0⟩],
      m_current := none, m_written := 0, m_lastSuccess := none, emitted := [],
      timers := [0, 1000, 1000], attempts := [7, 7] }
    ⟨7, "a".toList, [], 2, 0⟩ [⟨8, "b".toList, [1], 0, 0⟩] rfl rfl (by decide)
    (Or.inr (by decide))
  ⟨h.1, h.2.2.2.2.1⟩

/-! ## C15: a transport error -/

/-- C15. With a command in flight, `onError e` appends to the signal log exactly one
`sendingError` with the id of that command and `e`, followed by nothing but possibly
`connectionError e`; it clears the in-flight slot, schedules one pump with delay 0 and
leaves the queue as it is. With no command in flight it emits nothing except possibly
`connectionError e`, schedules nothing and leaves queue and slot as they are. Socket,
accumulator and attempt log are unchanged in both cases. -/
theorem C15_onError (c : IpcClient) (e : SocketError) :
    (c.onError e).m_queue = c.m_queue ∧
    (c.onError e).m_current = none ∧
    (c.onError e).m_socket = c.m_socket ∧
    (c.onError e).m_written = c.m_written ∧
    (c.onError e).attempts = c.attempts ∧
    (match c.m_current with
     | some cur =>
       (c.onError e).timers = c.timers ++ [0] ∧
       ((c.onError e).emitted = c.emitted ++ [Signal.sendingError cur.m_uuid e] ∨
        (c.onError e).emitted =
          c.emitted ++ [Signal.sendingError cur.m_uuid e, Signal.connectionError e])
     | none =>
       (c.onError e).timers = c.timers ∧
       ((c.onError e).emitted = c.emitted ∨
        (c.onError e).emitted = c.emitted ++ [Signal.connectionError e])) := by
  unfold IpcClient.onError
  cases h : c.m_current <;> simp only [] <;> split <;> simp [h]

/-! ## C16: when `connectionError` is emitted -/

/-- The signals `onError e` appends: `sendingError` for the in-flight command, if any, then
`connectionError e` when the socket is neither connected nor bound or `e` is
`RemoteHostClosedError`. -/
theorem onError_emitted (c : IpcClient) (e : SocketError) :
    (c.onError e).emitted =
      c.emitted ++
      (match c.m_current with
       | some cur => [Signal.sendingError cur.m_uuid e]
       | none => []) ++
      (if (c.m_socket.state ≠ SocketState.ConnectedState ∧
           c.m_socket.state ≠ SocketState.BoundState) ∨
          e = SocketError.RemoteHostClosedError
       then [Signal.connectionError e] else []) := by
  unfold IpcClient.onError
  cases h : c.m_current <;> simp only [] <;> split <;> rename_i hc <;>
    simp at hc <;> simp [hc] <;> exact hc.1


/-- C16, amended. The signal `connectionError e` is emitted by `onError e` exactly when the
socket is neither in `ConnectedState` nor in `BoundState`, or `e` is
`RemoteHostClosedError`; neither the kind of `e` otherwise nor a command in flight plays
a part. The retry-exhaustion path of the pump calls `onError ConnectionRefusedError`:
it emits `sendingError` for the head and, when the socket is neither connected nor bound,
`connectionError ConnectionRefusedError` after it. -/
theorem C16_connectionError_condition (c : IpcClient) (e : SocketError) :
    (c.onError e).emitted =
      c.emitted ++
      (match c.m_current with
       | some cur => [Signal.sendingError cur.m_uuid e]
       | none => []) ++
      (if (c.m_socket.state ≠ SocketState.ConnectedState ∧
           c.m_socket.state ≠ SocketState.BoundState) ∨
          e = SocketError.RemoteHostClosedError
       then [Signal.connectionError e] else []) ∧
    ∀ (head : Package) (rest : List Package), c.m_current = none →
      c.m_queue = head :: rest → 4 ≤ head.m_tries →
      c.processQueue.emitted =
        c.emitted ++ [Signal.sendingError head.m_uuid SocketError.ConnectionRefusedError] ++
        (if c.m_socket.state ≠ SocketState.ConnectedState ∧
            c.m_socket.state ≠ SocketState.BoundState
         then [Signal.connectionError SocketError.ConnectionRefusedError] else []) := by
  refine ⟨onError_emitted c e, ?_⟩
  intro head rest hcur hq ht
  unfold IpcClient.processQueue
  simp only [hcur, hq]
  rw [if_pos (by simp; omega)]
  simp only [onError_emitted]
  simp

/-- C16, amended, on an unconnected client whose only command has been tried four times. -/
theorem C16_connectionError_condition_witness :
    (IpcClient.processQueue
      { m_socket := { valid := true, state := SocketState.UnconnectedState,
                      bytesToWrite := 0, written := [] },
        m_queue := [⟨7, "a".toList, [], 4, 0⟩],
        m_current := none, m_written := 0, m_lastSuccess := none, emitted := [],
        timers := [], attempts := [7, 7, 7, 7] }).emitted =
      [Signal.sendingError 7 SocketError.ConnectionRefusedError,
       Signal.connectionError SocketError.ConnectionRefusedError] :=
  (C16_connectionError_condition
    { m_socket := { valid := true, state := SocketState.UnconnectedState,
                    bytesToWrite := 0, written := [] },
      m_queue := [⟨7, "a".toList, [], 4, 0⟩],
      m_current := none, m_written := 0, m_lastSuccess := none, emitted := [],
      timers := [], attempts := [7, 7, 7, 7] }
    SocketError.SocketTimeoutError).2 ⟨7, "a".toList, [], 4, 0⟩ [] rfl rfl (by decide)

/-- C16 as stated fails. A timeout, a command-local error, reported on a socket that is
not connected emits `connectionError`; a refused connection reported on a bound socket
emits none; and the retry-exhaustion path of the pump emits `connectionError` next to
the per-command `sendingError` when the socket is not connected. -/
theorem C16_connectionError_follows_socket_state :
    ((IpcClient.create { valid := true, state := SocketState.UnconnectedState,
                         bytesToWrite := 0, written := [] }).onError
        SocketError.SocketTimeoutError).emitted =
      [Signal.connectionError SocketError.SocketTimeoutError] ∧
    ((IpcClient.create { valid := true, state := SocketState.BoundState,
                         bytesToWrite := 0, written := [] }).onError
        SocketError.ConnectionRefusedError).emitted = [] ∧
    (IpcClient.processQueue
      { m_socket := { valid := true, state := SocketState.UnconnectedState,
                      bytesToWrite := 0, written := [] },
        m_queue := [⟨7, "a".toList, [], 4, 0⟩],
        m_current := none, m_written := 0, m_lastSuccess := none, emitted := [],
        timers := [], attempts := [7, 7, 7, 7] }).emitted =
      [Signal.sendingError 7 SocketError.ConnectionRefusedError,
       Signal.connectionError SocketError.ConnectionRefusedError] := by
  decide

/-! ## C17: attempt counters -/

theorem sameCommand_refl (l : List Package) : List.Forall₂ SameCommand l l := by
  induction l with
  | nil => exact List.Forall₂.nil
  | cons p l ih => exact List.Forall₂.cons ⟨rfl, rfl, rfl, Nat.le_refl _⟩ ih

theorem countersInRange_onError (c : IpcClient) (e : SocketError)
    (h1 : ∀ p ∈ c.m_queue, p.m_tries < 5) (h2 : ∀ p ∈ c.m_queue.tail, p.m_tries = 0) :
    CountersInRange (c.onError e) := by
  unfold IpcClient.onError CountersInRange
  cases h : c.m_current <;> simp only [] <;> split <;> simp [h] <;> exact ⟨h1, h2⟩

theorem countersInRange_processQueue (c : IpcClient) (h : CountersInRange c) :
    CountersInRange c.processQueue := by
  obtain ⟨h1, h2, h3⟩ := h
  unfold IpcClient.processQueue
  cases hcur : c.m_current with
  | some p => exact ⟨h1, h2, h3⟩
  | none =>
    cases hq : c.m_queue with
    | nil => exact ⟨h1, h2, h3⟩
    | cons head rest =>
      rw [hq] at h1 h2
      have hrest : ∀ p ∈ rest, p.m_tries = 0 := by simpa using h2
      have hrest5 : ∀ p ∈ rest, p.m_tries < 5 := fun p hp => by rw [hrest p hp]; decide
      have htail : ∀ p ∈ rest.tail, p.m_tries = 0 :=
        fun p hp => hrest p (List.mem_of_mem_tail hp)
      simp only []
      split
      · have := countersInRange_onError
          { c with m_queue := rest,
                   m_current := some { head with m_tries := head.m_tries + 1 } }
          SocketError.ConnectionRefusedError hrest5 htail
        exact this
      · rename_i hlt
        simp only [ge_iff_le, not_le] at hlt
        split
        · refine ⟨hrest5, htail, ?_⟩
          intro p hp
          simp only [Option.some.injEq] at hp
          subst hp
          exact hlt
        · refine ⟨?_, ?_, ?_⟩
          · intro p hp
            rcases List.mem_cons.mp hp with e | e
            · rw [e]; exact hlt
            · exact hrest5 p e
          · simpa using hrest
          · intro p hp
            simp at hp

theorem countersInRange_step (c c1 : IpcClient) (e : Event) (h : CountersInRange c)
    (hs : c.step e = some c1) : CountersInRange c1 := by
  obtain ⟨h1, h2, h3⟩ := h
  cases e with
  | send m d u =>
    simp only [IpcClient.step, IpcClient.send, Option.some.injEq] at hs
    subst hs
    refine ⟨?_, ?_, h3⟩
    · intro p hp
      rcases List.mem_append.mp hp with e | e
      · exact h1 p e
      · simp only [List.mem_singleton] at e
        rw [e]; exact (by decide : (0 : Nat) < 5)
    · intro p hp
      simp only at hp
      cases hq : c.m_queue with
      | nil => rw [hq] at hp; simp at hp
      | cons x xs =>
        rw [hq] at hp h2
        simp only [List.cons_append, List.tail_cons, List.mem_append,
          List.mem_singleton] at hp h2
        rcases hp with e | e
        · exact h2 p e
        · rw [e]
  | processQueue =>
    simp only [IpcClient.step, Option.some.injEq] at hs
    subst hs
    exact countersInRange_processQueue c ⟨h1, h2, h3⟩
  | onBytesWritten w =>
    simp only [IpcClient.step, IpcClient.onBytesWritten] at hs
    cases hc : c.m_current with
    | none => simp [hc] at hs
    | some cur =>
      simp only [hc] at hs
      split at hs
      · simp only [Option.some.injEq] at hs
        subst hs
        exact ⟨h1, h2, fun p hp => h3 p (by rw [hc]; exact hp)⟩
      · simp only [Option.some.injEq] at hs
        subst hs
        apply countersInRange_processQueue
        exact ⟨h1, h2, by intro p hp; simp at hp⟩
  | onError err =>
    simp only [IpcClient.step, Option.some.injEq] at hs
    subst hs
    exact countersInRange_onError c err h1 h2
  | socketChanged v st b =>
    simp only [IpcClient.step, Option.some.injEq] at hs
    subst hs
    exact ⟨h1, h2, h3⟩

theorem countersInRange_run (evs : List Event) : ∀ (c c1 : IpcClient), CountersInRange c →
    c.run evs = some c1 → CountersInRange c1 := by
  induction evs with
  | nil =>
    intro c c1 h hr
    simp only [IpcClient.run, Option.some.injEq] at hr
    subst hr
    exact h
  | cons e es ih =>
    intro c c1 h hr
    simp only [IpcClient.run] at hr
    cases hs : c.step e with
    | none => simp [hs] at hr
    | some c2 =>
      simp only [hs] at hr
      exact ih c2 c1 (countersInRange_step c c2 e h hs) hr

theorem owned_onError (c : IpcClient) (e : SocketError) : (c.onError e).owned = c.m_queue := by
  unfold IpcClient.onError IpcClient.owned
  cases h : c.m_current <;> simp only [] <;> split <;> simp [h]

/-- From an idle client the pump keeps a tail of the queue, counters not decreased. -/
theorem advances_processQueue_idle (c : IpcClient) (h : c.m_current = none) :
    ∃ (k : Nat) (front : List Package),
      List.Forall₂ SameCommand (c.m_queue.drop k) front ∧ c.processQueue.owned = front := by
  unfold IpcClient.processQueue
  simp only [h]
  cases hq : c.m_queue with
  | nil => exact ⟨0, [], by simp, by simp [IpcClient.owned, h, hq]⟩
  | cons head rest =>
    simp only []
    split
    · refine ⟨1, rest, by simpa using sameCommand_refl rest, ?_⟩
      have := owned_onError
        { c with m_queue := rest,
                 m_current := some { head with m_tries := head.m_tries + 1 } }
        SocketError.ConnectionRefusedError
      simpa [IpcClient.owned] using this
    · split
      · refine ⟨0, _, ?_, rfl⟩
        simp only [List.drop_zero, IpcClient.owned, Option.toList, List.singleton_append]
        exact List.Forall₂.cons ⟨rfl, rfl, rfl, Nat.le_succ _⟩ (sameCommand_refl rest)
      · refine ⟨0, _, ?_, rfl⟩
        simp only [List.drop_zero, IpcClient.owned, Option.toList, List.nil_append]
        exact List.Forall₂.cons ⟨rfl, rfl, rfl, Nat.le_succ _⟩ (sameCommand_refl rest)

theorem advances_step (c c1 : IpcClient) (e : Event) (hs : c.step e = some c1) :
    Advances c.owned c1.owned := by
  cases e with
  | send m d u =>
    simp only [IpcClient.step, IpcClient.send, Option.some.injEq] at hs
    subst hs
    refine ⟨0, c.owned, [⟨u, m, d, 0, 0⟩], by simpa using sameCommand_refl _, ?_, ?_⟩
    · simp [IpcClient.owned]
    · intro p hp
      simp only [List.mem_singleton] at hp
      rw [hp]
  | processQueue =>
    simp only [IpcClient.step, Option.some.injEq] at hs
    subst hs
    cases hc : c.m_current with
    | some cur =>
      have : c.processQueue = c := by simp [IpcClient.processQueue, hc]
      rw [this]
      exact ⟨0, c.owned, [], by simpa using sameCommand_refl _, by simp, by simp⟩
    | none =>
      obtain ⟨k, front, hf, ho⟩ := advances_processQueue_idle c hc
      refine ⟨k, front, [], ?_, by simp [ho], by simp⟩
      simpa [IpcClient.owned, hc] using hf
  | onBytesWritten w =>
    simp only [IpcClient.step, IpcClient.onBytesWritten] at hs
    cases hc : c.m_current with
    | none => simp [hc] at hs
    | some cur =>
      simp only [hc] at hs
      split at hs
      · simp only [Option.some.injEq] at hs
        subst hs
        refine ⟨0, c.owned, [], by simpa using sameCommand_refl _, ?_, by simp⟩
        simp [IpcClient.owned, hc]
      · simp only [Option.some.injEq] at hs
        subst hs
        obtain ⟨k, front, hf, ho⟩ := advances_processQueue_idle
          { c with m_written := c.m_written + w - cur.m_bytes,
                   emitted := c.emitted ++ [Signal.sentSuccessfully cur.m_uuid],
                   m_lastSuccess := some cur.m_uuid,
                   m_current := none } rfl
        refine ⟨k + 1, front, [], ?_, by simp [ho], by simp⟩
        simpa [IpcClient.owned, hc] using hf
  | onError err =>
    simp only [IpcClient.step, Option.some.injEq] at hs
    subst hs
    rw [owned_onError]
    cases hc : c.m_current with
    | none =>
      exact ⟨0, c.m_queue, [], by simpa [IpcClient.owned, hc] using sameCommand_refl _,
        by simp, by simp⟩
    | some cur =>
      exact ⟨1, c.m_queue, [], by simpa [IpcClient.owned, hc] using sameCommand_refl _,
        by simp, by simp⟩
  | socketChanged v st b =>
    simp only [IpcClient.step, Option.some.injEq] at hs
    subst hs
    exact ⟨0, c.owned, [], by simpa using sameCommand_refl _, by simp [IpcClient.owned],
      by simp⟩

/-- C17. In every state reached from a constructed client through `send`, `processQueue`,
`onBytesWritten`, `onError` (and socket changes): every queued command has a counter
below 5, every command behind the head has counter 0 and the in-flight command has a
counter below 5; any further step keeps the held commands in order with counters that
did not decrease, apart from commands leaving at the front and a new one, never tried,
joining at the back; and the pump that raises the head's counter from 4 to 5 removes
that command from the queue, leaves the in-flight slot empty and emits `sendingError` for
it. As no held command ever has counter 5, such a command is never again queued or in
flight. -/
theorem C17_attempt_counters (socket : QTcpSocket) (evs : List Event) (c : IpcClient)
    (h : (IpcClient.create socket).run evs = some c) :
    CountersInRange c ∧
    (∀ (e : Event) (c1 : IpcClient), c.step e = some c1 →
      Advances c.owned c1.owned ∧ CountersInRange c1) ∧
    (∀ (head : Package) (rest : List Package), c.m_current = none →
      c.m_queue = head :: rest → head.m_tries = 4 →
      c.processQueue.m_queue = rest ∧ c.processQueue.m_current = none ∧
      ∃ later, c.processQueue.emitted = c.emitted ++
        Signal.sendingError head.m_uuid SocketError.ConnectionRefusedError :: later) := by
  have hinv : CountersInRange c := by
    apply countersInRange_run evs _ _ _ h
    exact ⟨by simp [IpcClient.create], by simp [IpcClient.create],
      by simp [IpcClient.create]⟩
  refine ⟨hinv, fun e c1 hs => ⟨advances_step c c1 e hs, countersInRange_step c c1 e hinv hs⟩,
    ?_⟩
  intro head rest hcur hq ht
  unfold IpcClient.processQueue
  simp only [hcur, hq]
  rw [if_pos (by simp; omega)]
  unfold IpcClient.onError
  simp only []
  split
  · exact ⟨rfl, rfl, [Signal.connectionError SocketError.ConnectionRefusedError], by simp⟩
  · exact ⟨rfl, rfl, [], by simp⟩


/-- C17 on the client of `retryEvents`: the head has been tried twice, the command behind
it never. -/
theorem C17_attempt_counters_witness :
    ∃ c, (IpcClient.create { valid := false, state := SocketState.UnconnectedState,
                             bytesToWrite := 0, written := [] }).run retryEvents = some c ∧
      c.m_queue = [⟨7, "a".toList, [], 2, 0⟩, ⟨8, "b".toList, [1], 0, 0⟩] ∧
      (CountersInRange c ∧
       (∀ (e : Event) (c1 : IpcClient), c.step e = some c1 →
         Advances c.owned c1.owned ∧ CountersInRange c1) ∧
       (∀ (head : Package) (rest : List Package), c.m_current = none →
         c.m_queue = head :: rest → head.m_tries = 4 →
         c.processQueue.m_queue = rest ∧ c.processQueue.m_current = none ∧
         ∃ later, c.processQueue.emitted = c.emitted ++
           Signal.sendingError head.m_uuid SocketError.ConnectionRefusedError :: later)) :=
  ⟨_, rfl, rfl, C17_attempt_counters _ retryEvents _ rfl⟩

/-! ## C18: the assertion of `onBytesWritten` -/

/-- C18. After `errorInFlightEvents` the timeout has cleared the in-flight slot while the
27 bytes of the frame are still buffered in the socket; when the socket then flushes them
and reports 27 bytes written, `onBytesWritten` finds `m_current` null and its assertion
fails. -/
theorem C18_confirmation_after_error_fails_assertion :
    (∃ c, (IpcClient.create demoSocket).run errorInFlightEvents = some c ∧
      c.m_current = none ∧ c.m_socket.bytesToWrite = 27 ∧
      c.m_socket.written.flatten.length = 27 ∧
      c.emitted = [Signal.sendingError 7 SocketError.SocketTimeoutError] ∧
      c.onBytesWritten 27 = none) ∧
    lateConfirmationEvents = errorInFlightEvents ++
      [Event.socketChanged true SocketState.ConnectedState 0, Event.onBytesWritten 27] ∧
    (IpcClient.create demoSocket).run lateConfirmationEvents = none :=
  ⟨⟨_, rfl, rfl, rfl, rfl, rfl, rfl⟩, rfl, rfl⟩

/-! ## C12: forwarding the arguments -/

theorem uint8_ofNat_toNat (n : Nat) : (UInt8.ofNat n).toNat = n % 256 := by
  simp [UInt8.ofNat, UInt8.toNat, Fin.ofNat]

theorem putU32_length (n : Nat) : (putU32 n).length = 4 := rfl

theorem readU32_putU32 (n : Nat) (hn : n < 4294967296) (rest : QByteArray) (st : Status) :
    readU32 { data := putU32 n ++ rest, status := st } = (n, { data := rest, status := st }) := by
  simp only [putU32, readU32, List.cons_append, List.nil_append, uint8_ofNat_toNat]
  congr 1
  omega

theorem readU32_short (data : QByteArray) (h : data.length < 4) :
    readU32 { data := data, status := Status.Ok } =
      (0, { data := [], status := Status.ReadPastEnd }) := by
  match data, h with
  | [], _ => rfl
  | [_], _ => rfl
  | [_, _], _ => rfl
  | [_, _, _], _ => rfl
  | _ :: _ :: _ :: _ :: rest, h => simp at h; omega

theorem putUnit_getUnit (u : UInt16) :
    UInt16.ofNat ((UInt8.ofNat (u.toNat / 256)).toNat * 256 + (UInt8.ofNat u.toNat).toNat) = u := by
  have h : u.toNat < 65536 := u.val.isLt
  rw [uint8_ofNat_toNat, uint8_ofNat_toNat]
  have e : u.toNat / 256 % 256 * 256 + u.toNat % 256 = u.toNat := by omega
  rw [e]
  cases u with
  | mk v =>
    simp [UInt16.ofNat, UInt16.toNat, Fin.ofNat]

theorem getUnits_flatMap (str : QStringData) : getUnits (str.flatMap putUnit) = str := by
  induction str with
  | nil => rfl
  | cons u str ih =>
    rw [List.flatMap_cons]
    simp only [putUnit, List.cons_append, List.nil_append, getUnits, putUnit_getUnit]
    exact congrArg (List.cons u) ih

theorem flatMap_putUnit_length (str : QStringData) :
    (str.flatMap putUnit).length = 2 * str.length := by
  induction str with
  | nil => rfl
  | cons u str ih =>
    simp only [List.flatMap_cons, List.length_append, ih, putUnit, List.length_cons,
      List.length_nil]
    omega

theorem writeQString_length (str : QStringData) :
    (writeQString str).length = 4 + 2 * str.length := by
  rw [writeQString, List.length_append, putU32_length, flatMap_putUnit_length]

theorem readQString_writeQString (str : QStringData) (h : 2 * str.length < 0xFFFFFFFE)
    (rest : QByteArray) :
    readQString { data := writeQString str ++ rest, status := Status.Ok } =
      (str, { data := rest, status := Status.Ok }) := by
  unfold readQString writeQString
  rw [List.append_assoc, readU32_putU32 _ (by omega)]
  simp only []
  rw [if_neg (by omega)]
  by_cases h0 : 0 < 2 * str.length
  · rw [if_pos h0, if_neg (by omega), if_neg (by
      rw [List.length_append, flatMap_putUnit_length]; omega)]
    have hl := flatMap_putUnit_length str
    rw [← hl, List.take_left, List.drop_left, getUnits_flatMap]
  · rw [if_neg h0]
    have : str = [] := by
      cases str with
      | nil => rfl
      | cons u s => simp at h0
    subst this
    simp

theorem readQString_partial (str : QStringData) (h : 2 * str.length < 0xFFFFFFFE) (k : Nat)
    (hk : k < (writeQString str).length) :
    (readQString { data := (writeQString str).take k, status := Status.Ok }).2.status =
      Status.ReadPastEnd := by
  rw [writeQString_length] at hk
  by_cases h4 : k < 4
  · have hl : ((writeQString str).take k).length < 4 := by
      rw [List.length_take]; omega
    unfold readQString
    rw [readU32_short _ hl]
    simp
  · have e : (writeQString str).take k =
        putU32 (2 * str.length) ++ (str.flatMap putUnit).take (k - 4) := by
      unfold writeQString
      rw [List.take_append_eq_append_take, putU32_length, List.take_of_length_le (by
        rw [putU32_length]; omega)]
    unfold readQString
    rw [e, readU32_putU32 _ (by omega)]
    simp only []
    rw [if_neg (by omega), if_pos (by omega), if_neg (by omega), if_pos (by
      rw [List.length_take, flatMap_putUnit_length]; omega)]
    rfl


theorem readItems_complete (list : List QStringData) :
    ∀ (c : List QStringData) (rest : QByteArray),
      (∀ str ∈ list, 2 * str.length < 0xFFFFFFFE) →
      readItems list.length { data := list.flatMap writeQString ++ rest, status := Status.Ok } c =
        (c ++ list, { data := rest, status := Status.Ok }) := by
  induction list with
  | nil => intro c rest _; simp [readItems]
  | cons str list ih =>
    intro c rest h
    rw [List.flatMap_cons, List.length_cons, readItems, List.append_assoc,
      readQString_writeQString str (h str (by simp))]
    simp only [ne_eq, not_true_eq_false, if_false]
    rw [ih (c ++ [str]) rest (fun s hs => h s (by simp [hs]))]
    simp

theorem readItems_partial (list : List QStringData) :
    ∀ (c : List QStringData) (k : Nat),
      (∀ str ∈ list, 2 * str.length < 0xFFFFFFFE) →
      k < (list.flatMap writeQString).length →
      (readItems list.length
        { data := (list.flatMap writeQString).take k, status := Status.Ok } c).2.status =
        Status.ReadPastEnd := by
  induction list with
  | nil => intro c k _ hk; simp at hk
  | cons str list ih =>
    intro c k h hk
    rw [List.flatMap_cons] at hk ⊢
    rw [List.length_append] at hk
    rw [List.length_cons, readItems]
    by_cases hlt : k < (writeQString str).length
    · have e : (writeQString str ++ list.flatMap writeQString).take k =
          (writeQString str).take k := by
        rw [List.take_append_eq_append_take]
        have : k - (writeQString str).length = 0 := by omega
        rw [this]; simp
      have hp := readQString_partial str (h str (by simp)) k hlt
      rw [e, if_pos (by rw [hp]; decide)]
      exact hp
    · have e : (writeQString str ++ list.flatMap writeQString).take k =
          writeQString str ++ (list.flatMap writeQString).take (k - (writeQString str).length) := by
        rw [List.take_append_eq_append_take, List.take_of_length_le (by omega)]
      rw [e, readQString_writeQString str (h str (by simp))]
      simp only [ne_eq, not_true_eq_false, if_false]
      exact ih _ _ (fun s hs => h s (by simp [hs])) (by omega)

theorem readQStringList_complete (list : List QStringData) (hcount : list.length < 0xFFFFFFFE)
    (hsize : ∀ str ∈ list, 2 * str.length < 0xFFFFFFFE) :
    readQStringList { data := writeQStringList list, status := Status.Ok } =
      (list, { data := [], status := Status.Ok }) := by
  unfold readQStringList writeQStringList
  rw [readU32_putU32 _ (by omega)]
  have := readItems_complete list [] [] hsize
  simpa using this

theorem readQStringList_partial (list : List QStringData) (hcount : list.length < 0xFFFFFFFE)
    (hsize : ∀ str ∈ list, 2 * str.length < 0xFFFFFFFE) (k : Nat)
    (hk : k < (writeQStringList list).length) :
    (readQStringList { data := (writeQStringList list).take k, status := Status.Ok }).2.status =
      Status.ReadPastEnd := by
  unfold readQStringList
  by_cases h4 : k < 4
  · have hl : ((writeQStringList list).take k).length < 4 := by
      rw [List.length_take]; omega
    rw [readU32_short _ hl]
    rfl
  · have e : (writeQStringList list).take k =
        putU32 list.length ++ (list.flatMap writeQString).take (k - 4) := by
      unfold writeQStringList
      rw [List.take_append_eq_append_take, putU32_length, List.take_of_length_le (by
        rw [putU32_length]; omega)]
    rw [e, readU32_putU32 _ (by omega)]
    apply readItems_partial list [] _ hsize
    unfold writeQStringList at hk
    rw [List.length_append, putU32_length] at hk
    omega

theorem onReadyRead_incomplete (conn : Connection) (chunk tail : QByteArray)
    (list : List QStringData) (hcount : list.length < 0xFFFFFFFE)
    (hsize : ∀ str ∈ list, 2 * str.length < 0xFFFFFFFE) (htail : tail ≠ [])
    (h : conn.buffer ++ chunk ++ tail = writeQStringList list) :
    conn.onReadyRead chunk = some { conn with buffer := conn.buffer ++ chunk } := by
  have hlen : (conn.buffer ++ chunk).length < (writeQStringList list).length := by
    rw [← h, List.length_append (conn.buffer ++ chunk)]
    have : 0 < tail.length := List.length_pos.mpr htail
    omega
  have e : conn.buffer ++ chunk = (writeQStringList list).take (conn.buffer ++ chunk).length := by
    rw [← h, List.take_left]
  have hp := readQStringList_partial list hcount hsize _ hlen
  rw [← e] at hp
  unfold Connection.onReadyRead
  simp only []
  rw [if_pos hp]

theorem receive_incomplete (list : List QStringData) (hcount : list.length < 0xFFFFFFFE)
    (hsize : ∀ str ∈ list, 2 * str.length < 0xFFFFFFFE) (chunks : List QByteArray) :
    ∀ (conn : Connection) (tail : QByteArray), tail ≠ [] →
      conn.buffer ++ chunks.flatten ++ tail = writeQStringList list →
      conn.receive chunks = some { conn with buffer := conn.buffer ++ chunks.flatten } := by
  induction chunks with
  | nil => intro conn tail _ _; simp [Connection.receive]
  | cons chunk chunks ih =>
    intro conn tail htail h
    have h1 : conn.buffer ++ chunk ++ (chunks.flatten ++ tail) = writeQStringList list := by
      rw [← h]; simp
    rw [Connection.receive, onReadyRead_incomplete conn chunk (chunks.flatten ++ tail) list
      hcount hsize (by simp [htail]) h1]
    simp only []
    rw [ih { conn with buffer := conn.buffer ++ chunk } tail htail (by rw [← h]; simp)]
    simp

theorem receive_append (a b : List QByteArray) : ∀ conn : Connection,
    conn.receive (a ++ b) = (conn.receive a).bind fun conn1 => conn1.receive b := by
  induction a with
  | nil => intro conn; simp [Connection.receive]
  | cons chunk a ih =>
    intro conn
    simp only [List.cons_append, Connection.receive]
    cases conn.onReadyRead chunk with
    | none => rfl
    | some conn1 => exact ih conn1

/-- C12. Let the follower write the argument vector (its count and every string length
fitting the 32-bit length fields) and let the bytes reach the master split into non-empty
chunks, `init` followed by `last`, one `readyRead` each, on a fresh connection. After
any number of the chunks of `init` the handler has only collected the bytes: no action,
no failed assertion. With the chunk `last` it parses exactly the original vector, applies
the options and closes the connection, once. -/
theorem C12_forwarding_tolerates_partial_frames (arguments : List QStringData)
    (init : List QByteArray) (last : QByteArray)
    (hcount : arguments.length < 0xFFFFFFFE)
    (hsize : ∀ str ∈ arguments, 2 * str.length < 0xFFFFFFFE)
    (hne : ∀ chunk ∈ init ++ [last], chunk ≠ [])
    (hsplit : (init ++ [last]).flatten = forwardArguments arguments) :
    (∀ j, j ≤ init.length →
      Connection.receive { buffer := [], actions := [] } (init.take j) =
        some { buffer := (init.take j).flatten, actions := [] }) ∧
    Connection.receive { buffer := [], actions := [] } (init ++ [last]) =
      some { buffer := forwardArguments arguments,
             actions := [Action.parseArguments arguments, Action.applyOptions,
                         Action.close] } := by
  have hlast : last ≠ [] := hne last (by simp)
  have hs : init.flatten ++ last = writeQStringList arguments := by
    rw [← forwardArguments, ← hsplit]; simp
  constructor
  · intro j _
    have := receive_incomplete arguments hcount hsize (init.take j)
      { buffer := [], actions := [] } ((init.drop j).flatten ++ last) (by simp [hlast])
      (by
        rw [← hs]
        conv_rhs => rw [← List.take_append_drop j init, List.flatten_append]
        simp)
    simpa using this
  · rw [receive_append, receive_incomplete arguments hcount hsize init
      { buffer := [], actions := [] } last hlast (by simpa using hs)]
    simp only [Option.bind, Connection.receive, Connection.onReadyRead, List.nil_append]
    rw [hs, readQStringList_complete arguments hcount hsize]
    simp [forwardArguments]

/-- C12 for the vector `--stayontop`, `/tmp/proj`, whose 54 bytes arrive as 7, 20 and 27
bytes. -/
theorem C12_forwarding_tolerates_partial_frames_witness :
    (∀ j, j ≤ [(forwardArguments demoArguments).take 7,
               ((forwardArguments demoArguments).drop 7).take 20].length →
      Connection.receive { buffer := [], actions := [] }
        ([(forwardArguments demoArguments).take 7,
          ((forwardArguments demoArguments).drop 7).take 20].take j) =
        some { buffer := ([(forwardArguments demoArguments).take 7,
                           ((forwardArguments demoArguments).drop 7).take 20].take j).flatten,
               actions := [] }) ∧
    Connection.receive { buffer := [], actions := [] }
        ([(forwardArguments demoArguments).take 7,
          ((forwardArguments demoArguments).drop 7).take 20] ++
         [(forwardArguments demoArguments).drop 27]) =
      some { buffer := forwardArguments demoArguments,
             actions := [Action.parseArguments demoArguments, Action.applyOptions,
                         Action.close] } :=
  C12_forwarding_tolerates_partial_frames demoArguments
    [(forwardArguments demoArguments).take 7,
     ((forwardArguments demoArguments).drop 7).take 20]
    ((forwardArguments demoArguments).drop 27) (by decide) (by decide) (by decide)
    (by decide)

end QmlLive
